import Mathlib

/-!
Shallow embedding of src/libvmi/driver/memory_cache.c.

The C file implements a physical-memory page cache in two compile-time
variants: the full cache (ENABLE_PAGE_CACHE, glib hash table indexed by an
aligned physical address together with an LRU-ordered GList of key copies)
and a degenerate single-slot cache.  Both are modelled here.

Modelling conventions:
* machine integers are Nat; addr_t arithmetic that can wrap is taken
  modulo 2^64 explicitly where the C expression can wrap;
* the externally supplied callbacks (get_data_callback and
  release_data_callback) are modelled by a Backend oracle passed to each
  operation: its argument is the index of the fetch call, so successive
  fetches may return different buffers, and release calls are recorded
  in an event log instead of being executed;
* time(NULL) is modelled by an explicit now argument to each operation;
* the glib hash table is an association list with unique keys (the
  uniqueness is an invariant proved below, not an assumption of the
  definitions); g_hash_table_remove invokes the value destructor
  memory_cache_entry_free, which records a release event;
* the GList of the lru is a List Nat of key values; g_list_last,
  g_list_remove_link and g_list_concat on empty lists are no-ops,
  exactly as in glib.
-/

namespace MemCache

/-- One observable interaction with the backend callbacks: a call of
get_data_callback (recording its result, none for NULL) or a call of
release_data_callback (the data argument is none when the C pointer is
NULL). -/
inductive Event where
  | fetch (paddr length : Nat) (result : Option Nat)
  | release (data : Option Nat) (length : Nat)
deriving DecidableEq

/-- struct memory_cache_entry. -/
structure Entry where
  paddr : Nat
  length : Nat
  last_updated : Nat
  last_used : Nat
  data : Option Nat
deriving DecidableEq

/-- The fields of vmi_instance_t that memory_cache.c reads or writes,
plus the fetch-call counter and the event log of backend interactions. -/
structure Vmi where
  page_size : Nat
  hvm : Bool
  size : Nat
  memory_cache : List (Nat × Entry)
  memory_cache_lru : List Nat
  memory_cache_age : Nat
  memory_cache_size : Nat
  memory_cache_size_max : Nat
  fetchCount : Nat
  events : List Event
deriving DecidableEq

/-- The get_data_callback oracle: fetch-call index, paddr, length to
optional buffer identity. -/
def Backend : Type := Nat → Nat → Nat → Option Nat

def U64 : Nat := 2 ^ 64

/-- Truncation to uint64, for addr_t arithmetic. -/
def u64 (x : Nat) : Nat := x % U64

/-- Bitwise NOT on a uint64 value. -/
def not64 (x : Nat) : Nat := U64 - 1 - u64 x

/-- The mask NOT (((addr_t) page_size) - 1) from memory_cache_insert and
memory_cache_remove; the subtraction is uint64 subtraction. -/
def alignMask (page_size : Nat) : Nat := not64 (u64 (page_size + (U64 - 1)))

/-- paddr AND NOT (((addr_t) page_size) - 1). -/
def alignDown (page_size paddr : Nat) : Nat := Nat.land paddr (alignMask page_size)

/-- g_hash_table_lookup on the key value. -/
def htLookup (c : List (Nat × Entry)) (k : Nat) : Option Entry :=
  (c.find? (fun kv => kv.1 == k)).map (fun kv => kv.2)

/-- memory_cache_entry_free, the value destructor installed at
g_hash_table_new_full: it calls release_data_callback(entry->data,
entry->length); here that appends a release event. -/
def memory_cache_entry_free (evs : List Event) (e : Entry) : List Event :=
  evs ++ [Event.release e.data e.length]

/-- g_hash_table_remove on the key value: when the key is present the
entry destructor memory_cache_entry_free runs; when absent nothing
happens. -/
def htRemoveFree (c : List (Nat × Entry)) (evs : List Event) (k : Nat) :
    List (Nat × Entry) × List Event :=
  match htLookup c k with
  | some e => (c.eraseP (fun kv => kv.1 == k), memory_cache_entry_free evs e)
  | none => (c, evs)

/-- In-place mutation of the hash value reached through the entry
pointer (validate_and_return_data writes through entry->...). -/
def setEntry (c : List (Nat × Entry)) (k : Nat) (e : Entry) : List (Nat × Entry) :=
  c.map (fun kv => if kv.1 == k then (kv.1, e) else kv)

/-- get_memory_data: calls the get_data_callback, recording the call. -/
def get_memory_data (backend : Backend) (vmi : Vmi) (paddr length : Nat) :
    Option Nat × Vmi :=
  let r := backend vmi.fetchCount paddr length
  (r, { vmi with
          fetchCount := vmi.fetchCount + 1,
          events := vmi.events ++ [Event.fetch paddr length r] })

/-- The while loop of clean_cache.  Arguments mirror the C state read and
written by the loop: the lru list, memory_cache_size and the value
memory_cache_size_max / 2.  Returns the remaining lru, the detached keys
in detachment order (g_list_concat appends each detached node at the end
of the accumulator), the final memory_cache_size and the number of
iterations performed.  g_list_last(NULL) is NULL and
g_list_remove_link(l, NULL) and g_list_concat(l, NULL) leave l
unchanged, so on an empty list an iteration only decrements the size. -/
def cleanLoop (lru : List Nat) (size max2 : Nat) : List Nat × List Nat × Nat × Nat :=
  if size > max2 then
    let rest := cleanLoop lru.dropLast (size - 1) max2
    match lru.getLast? with
    | some k => (rest.1, k :: rest.2.1, rest.2.2.1, rest.2.2.2 + 1)
    | none => (rest.1, rest.2.1, rest.2.2.1, rest.2.2.2 + 1)
  else
    (lru, [], size, 0)
termination_by size
decreasing_by omega

/-- remove_entry, the g_list_foreach callback of clean_cache: removes the
detached key from the hash table (releasing the entry's buffer through
the value destructor) and frees the key copy. -/
def remove_entry (p : List (Nat × Entry) × List Event) (k : Nat) :
    List (Nat × Entry) × List Event :=
  htRemoveFree p.1 p.2 k

/-- clean_cache. -/
def clean_cache (vmi : Vmi) : Vmi :=
  let r := cleanLoop vmi.memory_cache_lru vmi.memory_cache_size
      (vmi.memory_cache_size_max / 2)
  let ce := r.2.1.foldl remove_entry (vmi.memory_cache, vmi.events)
  { vmi with
      memory_cache_lru := r.1,
      memory_cache_size := r.2.2.1,
      memory_cache := ce.1,
      events := ce.2 }

/-- validate_and_return_data.  The age check is
memory_cache_age && (now - entry->last_updated > memory_cache_age);
on refresh the old buffer is released, the page refetched with the
entry's paddr and length, last_updated reset, and the first lru node
holding the entry's paddr moved to the head (g_list_find_custom finds
the first match; when absent the list operations are no-ops).  In both
branches last_used is set to now and entry->data returned. -/
def validate_and_return_data (backend : Backend) (now : Nat) (vmi : Vmi)
    (entry : Entry) : Option Nat × Vmi :=
  if 0 < vmi.memory_cache_age ∧ vmi.memory_cache_age < now - entry.last_updated then
    let evs1 := memory_cache_entry_free vmi.events entry
    let r := backend vmi.fetchCount entry.paddr entry.length
    let evs2 := evs1 ++ [Event.fetch entry.paddr entry.length r]
    let entry1 : Entry :=
      { entry with data := r, last_updated := now, last_used := now }
    let lru1 :=
      if vmi.memory_cache_lru.contains entry.paddr then
        entry.paddr :: vmi.memory_cache_lru.erase entry.paddr
      else vmi.memory_cache_lru
    (r, { vmi with
            events := evs2,
            fetchCount := vmi.fetchCount + 1,
            memory_cache := setEntry vmi.memory_cache entry.paddr entry1,
            memory_cache_lru := lru1 })
  else
    let entry1 : Entry := { entry with last_used := now }
    (entry.data, { vmi with memory_cache := setEntry vmi.memory_cache entry.paddr entry1 })

/-- The HVM bounds check of create_new_entry:
vmi->hvm && (paddr + length - 1 > vmi->size), with the subtraction
performed in uint64. -/
def hvmReject (vmi : Vmi) (paddr length : Nat) : Bool :=
  vmi.hvm && decide (u64 (paddr + length + (U64 - 1)) > vmi.size)

/-- create_new_entry: bounds check, allocate the entry, stamp both
timestamps, fetch the data (unconditionally stored, even when the
callback returns NULL), then run clean_cache when
memory_cache_size >= memory_cache_size_max. -/
def create_new_entry (backend : Backend) (now : Nat) (vmi : Vmi)
    (paddr length : Nat) : Option Entry × Vmi :=
  if hvmReject vmi paddr length then (none, vmi)
  else
    let fr := get_memory_data backend vmi paddr length
    let entry : Entry :=
      { paddr := paddr, length := length, last_updated := now,
        last_used := now, data := fr.1 }
    let vmi2 :=
      if fr.2.memory_cache_size ≥ fr.2.memory_cache_size_max then clean_cache fr.2
      else fr.2
    (some entry, vmi2)

/-- memory_cache_insert (full-cache variant). -/
def memory_cache_insert (backend : Backend) (now : Nat) (vmi : Vmi)
    (paddr : Nat) : Option Nat × Vmi :=
  if paddr ≠ alignDown vmi.page_size paddr then (none, vmi)
  else
    match htLookup vmi.memory_cache paddr with
    | some entry => validate_and_return_data backend now vmi entry
    | none =>
      let ce := create_new_entry backend now vmi paddr vmi.page_size
      match ce.1 with
      | none => (none, ce.2)
      | some entry =>
        (entry.data,
         { ce.2 with
             memory_cache := (paddr, entry) :: ce.2.memory_cache,
             memory_cache_lru := paddr :: ce.2.memory_cache_lru,
             memory_cache_size := ce.2.memory_cache_size + 1 })

/-- memory_cache_remove (full-cache variant): after the alignment check
it only calls g_hash_table_remove; the lru list and
memory_cache_size are not touched. -/
def memory_cache_remove (vmi : Vmi) (paddr : Nat) : Vmi :=
  if paddr ≠ alignDown vmi.page_size paddr then vmi
  else
    let ce := htRemoveFree vmi.memory_cache vmi.events paddr
    { vmi with memory_cache := ce.1, events := ce.2 }

/-- memory_cache_destroy (full-cache variant): frees the lru key copies
(no releases), destroys the hash table (running the value destructor on
every entry), and clears the bookkeeping fields. -/
def memory_cache_destroy (vmi : Vmi) : Vmi :=
  { vmi with
      memory_cache_lru := [],
      memory_cache := [],
      events := vmi.events ++
        vmi.memory_cache.map (fun kv => Event.release kv.2.data kv.2.length),
      memory_cache_age := 0,
      memory_cache_size := 0,
      memory_cache_size_max := 0 }

/-- memory_cache_init (full-cache variant); size_max is the compile-time
constant MAX_PAGE_CACHE_SIZE, a parameter here. -/
def memory_cache_init (page_size : Nat) (hvm : Bool) (guest_size age_limit size_max : Nat) : Vmi :=
  { page_size := page_size, hvm := hvm, size := guest_size,
    memory_cache := [], memory_cache_lru := [],
    memory_cache_age := age_limit, memory_cache_size := 0,
    memory_cache_size_max := size_max, fetchCount := 0, events := [] }

/-- A public operation of the full cache, with the wall-clock time of the
call where the operation reads time(NULL). -/
inductive Op where
  | insert (now paddr : Nat)
  | remove (paddr : Nat)
  | destroy
deriving DecidableEq

def step (backend : Backend) (vmi : Vmi) : Op → Vmi
  | Op.insert now p => (memory_cache_insert backend now vmi p).2
  | Op.remove p => memory_cache_remove vmi p
  | Op.destroy => memory_cache_destroy vmi

def run (backend : Backend) (init : Vmi) (ops : List Op) : Vmi :=
  ops.foldl (step backend) init

/-- Number of fetch events that returned buffer b with the given length. -/
def fetchedCount (evs : List Event) (b l : Nat) : Nat :=
  evs.countP (fun e =>
    match e with
    | Event.fetch _ len r => r == some b && len == l
    | _ => false)

/-- Number of release events for buffer b with the given length. -/
def releasedCount (evs : List Event) (b l : Nat) : Nat :=
  evs.countP (fun e =>
    match e with
    | Event.release d len => d == some b && len == l
    | _ => false)

/-- Total number of release events. -/
def releasedTotal (evs : List Event) : Nat :=
  evs.countP (fun e =>
    match e with
    | Event.release _ _ => true
    | _ => false)

/-- Number of cache entries holding buffer b with the given length. -/
def residentCount (c : List (Nat × Entry)) (b l : Nat) : Nat :=
  c.countP (fun kv => kv.2.data == some b && kv.2.length == l)

/-- The keys of the hash table, in association-list order. -/
def keys (c : List (Nat × Entry)) : List Nat := c.map Prod.fst

/-- Pointwise accounting between the event log and the resident
entries: every fetched buffer is either already released or resident,
per buffer identity and length. -/
def ownBalance (evs : List Event) (c : List (Nat × Entry)) : Prop :=
  ∀ b l, fetchedCount evs b l = releasedCount evs b l + residentCount c b l

/-- The hash table has unique keys. -/
def keysNodup (c : List (Nat × Entry)) : Prop := (keys c).Nodup

/-- Every entry records the key it is filed under (entry->paddr equals
the hash key). -/
def keyConsistent (c : List (Nat × Entry)) : Prop :=
  ∀ kv ∈ c, kv.2.paddr = kv.1

/-- The reachable-state invariant used for the ownership claims. -/
def Inv (vmi : Vmi) : Prop :=
  keysNodup vmi.memory_cache ∧ keyConsistent vmi.memory_cache ∧
    ownBalance vmi.events vmi.memory_cache

/-- Index, lru and counter consistency (spec invariants 1 and 2). -/
def consistent (vmi : Vmi) : Prop :=
  vmi.memory_cache_size = vmi.memory_cache.length ∧
  vmi.memory_cache_size = vmi.memory_cache_lru.length ∧
  vmi.memory_cache_lru.Perm (keys vmi.memory_cache) ∧
  (keys vmi.memory_cache).Nodup

/-- Whether a public operation is a memory_cache_remove call. -/
def isRemove : Op → Bool
  | Op.remove _ => true
  | _ => false

/-- The descending interval of indices: hi - 1, hi - 2, ..., lo. -/
def seg (lo hi : Nat) : List Nat :=
  (List.range (hi - lo)).reverse.map (fun i => lo + i)

/-- The entry created for the j-th insert of the distinct-pages
scenario. -/
def scenEntry (backend : Backend) (P now : Nat) (pg : Nat → Nat) (j : Nat) : Entry :=
  { paddr := pg j, length := P, last_updated := now, last_used := now,
    data := backend j (pg j) P }

/-- The hash table holding the scenario entries for indices hi-1 .. lo. -/
def scenCache (backend : Backend) (P now : Nat) (pg : Nat → Nat) (lo hi : Nat) :
    List (Nat × Entry) :=
  (seg lo hi).map (fun j => (pg j, scenEntry backend P now pg j))

/-- The lru list holding the scenario keys for indices hi-1 .. lo. -/
def scenLru (pg : Nat → Nat) (lo hi : Nat) : List Nat := (seg lo hi).map pg

/-- The fetch events of the first hi scenario inserts. -/
def scenFetches (backend : Backend) (P : Nat) (pg : Nat → Nat) (hi : Nat) :
    List Event :=
  (List.range hi).map (fun j => Event.fetch (pg j) P (backend j (pg j) P))

/-- The release events of evicting the scenario entries 0 .. t-1. -/
def scenReleases (backend : Backend) (P : Nat) (pg : Nat → Nat) (t : Nat) :
    List Event :=
  (List.range t).map (fun j => Event.release (backend j (pg j) P) P)

/-- The cache state after the first k distinct-page inserts of the
scenario (k at most the capacity). -/
def scenState (backend : Backend) (P gsz now : Nat) (pg : Nat → Nat) (M k : Nat) : Vmi :=
  { page_size := P, hvm := false, size := gsz,
    memory_cache := scenCache backend P now pg 0 k,
    memory_cache_lru := scenLru pg 0 k,
    memory_cache_age := 0, memory_cache_size := k,
    memory_cache_size_max := M, fetchCount := k,
    events := scenFetches backend P pg k }

/-- A concrete backend used to exercise the theorems on concrete
inputs: the i-th fetch returns buffer base + i. -/
def wbackend (base : Nat) : Backend := fun i _ _ => some (base + i)

/-- A concrete one-entry cache state: page size 0x1000, no HVM, the
given age limit, capacity 4, after insert(0x1000) at time 1. -/
def wstate (age base : Nat) : Vmi :=
  run (wbackend base) (memory_cache_init 4096 false 0 age 4) [Op.insert 1 4096]

/-- The entry resident in wstate. -/
def wentry (base : Nat) : Entry :=
  { paddr := 4096, length := 4096, last_updated := 1, last_used := 1,
    data := some base }

end MemCache

namespace NoCache

/-- The fields of vmi_instance_t used by the degenerate single-slot
variant (ENABLE_PAGE_CACHE disabled), plus the backend bookkeeping. -/
structure Vmi where
  page_size : Nat
  last_used_page_key : Nat
  last_used_page : Option Nat
  fetchCount : Nat
  events : List MemCache.Event
deriving DecidableEq

/-- memory_cache_insert (degenerate variant).  The C truth tests are
pointer or integer truthiness: vmi->last_used_page is treated as
occupied when non-NULL, vmi->last_used_page_key when nonzero. -/
def memory_cache_insert (backend : MemCache.Backend) (vmi : Vmi) (paddr : Nat) :
    Option Nat × Vmi :=
  if paddr = vmi.last_used_page_key ∧ vmi.last_used_page.isSome then
    (vmi.last_used_page, vmi)
  else
    let evs :=
      if vmi.last_used_page_key ≠ 0 ∧ vmi.last_used_page.isSome then
        vmi.events ++ [MemCache.Event.release vmi.last_used_page vmi.page_size]
      else vmi.events
    let r := backend vmi.fetchCount paddr vmi.page_size
    (r, { vmi with
            last_used_page := r,
            last_used_page_key := paddr,
            fetchCount := vmi.fetchCount + 1,
            events := evs ++ [MemCache.Event.fetch paddr vmi.page_size r] })

/-- memory_cache_remove (degenerate variant): releases the slot's buffer
when the key matches and the slot is non-NULL, but clears neither the
key nor the pointer. -/
def memory_cache_remove (vmi : Vmi) (paddr : Nat) : Vmi :=
  if paddr = vmi.last_used_page_key ∧ vmi.last_used_page.isSome then
    { vmi with events :=
        vmi.events ++ [MemCache.Event.release vmi.last_used_page vmi.page_size] }
  else vmi

/-- memory_cache_destroy (degenerate variant). -/
def memory_cache_destroy (vmi : Vmi) : Vmi :=
  let evs :=
    if vmi.last_used_page_key ≠ 0 ∧ vmi.last_used_page.isSome then
      vmi.events ++ [MemCache.Event.release vmi.last_used_page vmi.page_size]
    else vmi.events
  { vmi with last_used_page_key := 0, last_used_page := none, events := evs }

/-- memory_cache_init (degenerate variant): only installs the callbacks;
the slot fields of a fresh vmi instance are zeroed. -/
def memory_cache_init (page_size : Nat) : Vmi :=
  { page_size := page_size, last_used_page_key := 0, last_used_page := none,
    fetchCount := 0, events := [] }

end NoCache

/-! ## Helper lemmas -/

namespace MemCache

theorem find?_block {α : Type} {p : α → Bool} {l₁ : List α} {x : α} (l₂ : List α)
    (h₁ : ∀ a ∈ l₁, p a = false) (hx : p x = true) :
    (l₁ ++ x :: l₂).find? p = some x := by
  induction l₁ with
  | nil => simp [List.find?_cons, hx]
  | cons a t ih =>
    have ha : p a = false := h₁ a (by simp)
    simp only [List.cons_append, List.find?_cons, ha, cond_false]
    exact ih (fun b hb => h₁ b (by simp [hb]))

theorem eraseP_block {α : Type} {p : α → Bool} {l₁ : List α} {x : α} (l₂ : List α)
    (h₁ : ∀ a ∈ l₁, p a = false) (hx : p x = true) :
    (l₁ ++ x :: l₂).eraseP p = l₁ ++ l₂ := by
  induction l₁ with
  | nil => simp [List.eraseP_cons, hx]
  | cons a t ih =>
    have ha : p a = false := h₁ a (by simp)
    simp only [List.cons_append, List.eraseP_cons, ha, cond_false]
    exact congrArg (a :: ·) (ih (fun b hb => h₁ b (by simp [hb])))

theorem htLookup_decomp {c : List (Nat × Entry)} {k : Nat} {e : Entry}
    (h : htLookup c k = some e) :
    ∃ l₁ l₂, c = l₁ ++ (k, e) :: l₂ ∧ ∀ kv ∈ l₁, (kv.1 == k) = false := by
  induction c with
  | nil => simp [htLookup] at h
  | cons kv t ih =>
    obtain ⟨k₀, e₀⟩ := kv
    by_cases hk : (k₀ == k) = true
    · have hkk : k₀ = k := by simpa using hk
      have he : e₀ = e := by
        simp [htLookup, List.find?_cons, hk] at h
        exact h
      exact ⟨[], t, by simp [hkk, he], by simp⟩
    · have hk' : (k₀ == k) = false := by simpa using hk
      have h' : htLookup t k = some e := by
        simpa [htLookup, List.find?_cons, hk'] using h
      obtain ⟨l₁, l₂, rfl, hl⟩ := ih h'
      refine ⟨(k₀, e₀) :: l₁, l₂, rfl, ?_⟩
      intro kv hkv
      rcases List.mem_cons.mp hkv with h1 | h1
      · simpa [h1] using hk'
      · exact hl kv h1

theorem htLookup_block {l₁ l₂ : List (Nat × Entry)} {k : Nat} {e : Entry}
    (h₁ : ∀ kv ∈ l₁, (kv.1 == k) = false) :
    htLookup (l₁ ++ (k, e) :: l₂) k = some e := by
  unfold htLookup
  rw [find?_block l₂ h₁ (by simp)]
  rfl

theorem keys_eraseP (c : List (Nat × Entry)) (k : Nat) :
    keys (c.eraseP (fun kv => kv.1 == k)) = (keys c).erase k := by
  induction c with
  | nil => simp [keys]
  | cons kv t ih =>
    cases hk : (kv.1 == k) with
    | true => simp [keys, List.eraseP_cons, hk, List.erase_cons, (by simpa using hk : kv.1 = k)]
    | false =>
      have hne : ¬ kv.1 = k := by simpa using hk
      simp only [keys, List.eraseP_cons, hk, cond_false, List.map_cons,
        List.erase_cons, if_neg (by simpa using hne)]
      exact congrArg (kv.1 :: ·) ih

theorem htLookup_eq_none {c : List (Nat × Entry)} {k : Nat}
    (h : htLookup c k = none) : k ∉ keys c := by
  intro hmem
  obtain ⟨kv, hkv, hfst⟩ := List.mem_map.mp hmem
  have := List.find?_eq_none.mp (Option.map_eq_none'.mp h) kv hkv
  simp [hfst] at this

theorem keys_htRemoveFree (c : List (Nat × Entry)) (evs : List Event) (k : Nat) :
    keys (htRemoveFree c evs k).1 = (keys c).erase k := by
  unfold htRemoveFree
  cases h : htLookup c k with
  | some e => simpa using keys_eraseP c k
  | none =>
    have := htLookup_eq_none h
    simp [List.erase_of_not_mem this]

theorem setEntry_cons (kv : Nat × Entry) (t : List (Nat × Entry)) (k : Nat) (e : Entry) :
    setEntry (kv :: t) k e =
      (if kv.1 == k then (kv.1, e) else kv) :: setEntry t k e := rfl

theorem setEntry_of_forall {c : List (Nat × Entry)} {k : Nat} (e : Entry)
    (h : ∀ kv ∈ c, (kv.1 == k) = false) : setEntry c k e = c := by
  induction c with
  | nil => rfl
  | cons kv t ih =>
    have hk := h kv (by simp)
    rw [setEntry_cons, if_neg (by simp [hk]), ih (fun b hb => h b (by simp [hb]))]

theorem keys_setEntry (c : List (Nat × Entry)) (k : Nat) (e : Entry) :
    keys (setEntry c k e) = keys c := by
  induction c with
  | nil => rfl
  | cons kv t ih =>
    rw [setEntry_cons]
    by_cases hk : (kv.1 == k) = true
    · rw [if_pos hk]
      simpa [keys] using ih
    · rw [if_neg hk]
      simpa [keys] using ih

theorem setEntry_append (l₁ l₂ : List (Nat × Entry)) (k : Nat) (e : Entry) :
    setEntry (l₁ ++ l₂) k e = setEntry l₁ k e ++ setEntry l₂ k e := by
  simp [setEntry]

theorem setEntry_block {l₁ l₂ : List (Nat × Entry)} {k : Nat} {e : Entry}
    (e' : Entry) (h₁ : ∀ kv ∈ l₁, (kv.1 == k) = false)
    (h₂ : ∀ kv ∈ l₂, (kv.1 == k) = false) :
    setEntry (l₁ ++ (k, e) :: l₂) k e' = l₁ ++ (k, e') :: l₂ := by
  rw [setEntry_append, setEntry_cons, if_pos (by simp),
    setEntry_of_forall e' h₁, setEntry_of_forall e' h₂]

end MemCache

namespace MemCache

theorem fetchedCount_append (e₁ e₂ : List Event) (b l : Nat) :
    fetchedCount (e₁ ++ e₂) b l = fetchedCount e₁ b l + fetchedCount e₂ b l :=
  List.countP_append _ _ _

theorem releasedCount_append (e₁ e₂ : List Event) (b l : Nat) :
    releasedCount (e₁ ++ e₂) b l = releasedCount e₁ b l + releasedCount e₂ b l :=
  List.countP_append _ _ _

theorem residentCount_append (c₁ c₂ : List (Nat × Entry)) (b l : Nat) :
    residentCount (c₁ ++ c₂) b l = residentCount c₁ b l + residentCount c₂ b l :=
  List.countP_append _ _ _

theorem releasedTotal_append (e₁ e₂ : List Event) :
    releasedTotal (e₁ ++ e₂) = releasedTotal e₁ + releasedTotal e₂ :=
  List.countP_append _ _ _

theorem fetchedCount_release (d : Option Nat) (len b l : Nat) :
    fetchedCount [Event.release d len] b l = 0 := rfl

theorem releasedCount_release (d : Option Nat) (len b l : Nat) :
    releasedCount [Event.release d len] b l =
      if d = some b ∧ len = l then 1 else 0 := by
  simp only [releasedCount, List.countP_cons, List.countP_nil]
  by_cases h : d = some b ∧ len = l
  · simp [h.1, h.2]
  · rw [if_neg h]
    rcases Decidable.not_and_iff_or_not.mp h with h1 | h1 <;> simp [h1]

theorem fetchedCount_fetch (p len : Nat) (r : Option Nat) (b l : Nat) :
    fetchedCount [Event.fetch p len r] b l =
      if r = some b ∧ len = l then 1 else 0 := by
  simp only [fetchedCount, List.countP_cons, List.countP_nil]
  by_cases h : r = some b ∧ len = l
  · simp [h.1, h.2]
  · rw [if_neg h]
    rcases Decidable.not_and_iff_or_not.mp h with h1 | h1 <;> simp [h1]

theorem releasedCount_fetch (p len : Nat) (r : Option Nat) (b l : Nat) :
    releasedCount [Event.fetch p len r] b l = 0 := rfl

theorem residentCount_cons (kv : Nat × Entry) (c : List (Nat × Entry)) (b l : Nat) :
    residentCount (kv :: c) b l =
      (if kv.2.data = some b ∧ kv.2.length = l then 1 else 0) + residentCount c b l := by
  simp only [residentCount, List.countP_cons]
  by_cases h : kv.2.data = some b ∧ kv.2.length = l
  · simp [h.1, h.2, Nat.add_comm]
  · rw [if_neg h]
    rcases Decidable.not_and_iff_or_not.mp h with h1 | h1 <;> simp [h1]

/-- g_hash_table_remove keeps the sum of released and resident counts:
a removed entry's buffer moves from resident to released. -/
theorem sum_htRemoveFree (c : List (Nat × Entry)) (evs : List Event) (k b l : Nat) :
    releasedCount (htRemoveFree c evs k).2 b l + residentCount (htRemoveFree c evs k).1 b l =
      releasedCount evs b l + residentCount c b l := by
  unfold htRemoveFree
  cases hlk : htLookup c k with
  | none => rfl
  | some e =>
    obtain ⟨l₁, l₂, rfl, hl⟩ := htLookup_decomp hlk
    rw [eraseP_block l₂ hl (by simp)]
    simp only [memory_cache_entry_free, releasedCount_append, residentCount_append,
      residentCount_cons, releasedCount_release]
    omega

theorem fetched_htRemoveFree (c : List (Nat × Entry)) (evs : List Event) (k b l : Nat) :
    fetchedCount (htRemoveFree c evs k).2 b l = fetchedCount evs b l := by
  unfold htRemoveFree
  cases hlk : htLookup c k with
  | none => rfl
  | some e =>
    simp [memory_cache_entry_free, fetchedCount_append, fetchedCount_release]

theorem sum_removeFold (ks : List Nat) :
    ∀ (c : List (Nat × Entry)) (evs : List Event) (b l : Nat),
      releasedCount (ks.foldl remove_entry (c, evs)).2 b l +
        residentCount (ks.foldl remove_entry (c, evs)).1 b l =
      releasedCount evs b l + residentCount c b l := by
  induction ks with
  | nil => intro c evs b l; rfl
  | cons k t ih =>
    intro c evs b l
    rcases hre : htRemoveFree c evs k with ⟨c', evs'⟩
    have hstep : remove_entry (c, evs) k = (c', evs') := hre
    simp only [List.foldl_cons, hstep]
    rw [ih c' evs' b l]
    have := sum_htRemoveFree c evs k b l
    rw [hre] at this
    exact this

theorem fetched_removeFold (ks : List Nat) :
    ∀ (c : List (Nat × Entry)) (evs : List Event) (b l : Nat),
      fetchedCount (ks.foldl remove_entry (c, evs)).2 b l = fetchedCount evs b l := by
  induction ks with
  | nil => intro c evs b l; rfl
  | cons k t ih =>
    intro c evs b l
    rcases hre : htRemoveFree c evs k with ⟨c', evs'⟩
    have hstep : remove_entry (c, evs) k = (c', evs') := hre
    simp only [List.foldl_cons, hstep]
    rw [ih c' evs' b l]
    have := fetched_htRemoveFree c evs k b l
    rw [hre] at this
    exact this

theorem keys_removeFold (ks : List Nat) :
    ∀ (c : List (Nat × Entry)) (evs : List Event),
      keys (ks.foldl remove_entry (c, evs)).1 = (keys c).diff ks := by
  induction ks with
  | nil => intro c evs; simp
  | cons k t ih =>
    intro c evs
    rcases hre : htRemoveFree c evs k with ⟨c', evs'⟩
    have hstep : remove_entry (c, evs) k = (c', evs') := hre
    simp only [List.foldl_cons, hstep]
    rw [ih c' evs', List.diff_cons]
    have := keys_htRemoveFree c evs k
    rw [hre] at this
    rw [this]

end MemCache

namespace MemCache

theorem cleanLoop_eq (size : Nat) : ∀ (max2 : Nat) (lru : List Nat),
    cleanLoop lru size max2 =
      (lru.take (lru.length - (size - max2)),
       (lru.drop (lru.length - (size - max2))).reverse,
       size - (size - max2), size - max2) := by
  induction size using Nat.strong_induction_on with
  | _ size ih =>
    intro max2 lru
    by_cases h : size > max2
    · have hlt : size - 1 < size := by omega
      have hn : size - max2 = (size - 1 - max2) + 1 := by omega
      rcases List.eq_nil_or_concat lru with rfl | ⟨l, k, rfl⟩
      all_goals simp only [List.concat_eq_append] at *
      · rw [cleanLoop, if_pos h, ih (size - 1) hlt max2]
        simp only [List.dropLast_nil, List.getLast?_nil, List.take_nil, List.drop_nil,
          List.reverse_nil, List.length_nil]
        refine congrArg₂ Prod.mk rfl (congrArg₂ Prod.mk rfl (congrArg₂ Prod.mk ?_ ?_)) <;> omega
      · rw [cleanLoop, if_pos h, ih (size - 1) hlt max2]
        rw [List.dropLast_concat, List.getLast?_concat]
        have ht : (l ++ [k]).length - (size - max2) = l.length - (size - 1 - max2) := by
          simp only [List.length_append, List.length_cons, List.length_nil]
          omega
        have hle : l.length - (size - 1 - max2) ≤ l.length := by omega
        rw [ht, List.take_append_of_le_length hle, List.drop_append_of_le_length hle]
        simp only [List.reverse_append, List.reverse_cons, List.reverse_nil,
          List.nil_append, List.singleton_append]
        refine congrArg₂ Prod.mk rfl (congrArg₂ Prod.mk rfl (congrArg₂ Prod.mk ?_ ?_)) <;> omega
    · rw [cleanLoop, if_neg h]
      have hz : size - max2 = 0 := by omega
      simp [hz]

theorem nodup_block {l₁ l₂ : List (Nat × Entry)} {k : Nat} {e : Entry}
    (h : keysNodup (l₁ ++ (k, e) :: l₂)) : ∀ kv ∈ l₂, (kv.1 == k) = false := by
  unfold keysNodup keys at h
  rw [List.map_append, List.map_cons] at h
  have h₂ := (List.nodup_append.mp h).2.1
  have hk : k ∉ l₂.map Prod.fst := (List.nodup_cons.mp h₂).1
  intro kv hkv
  have : kv.1 ≠ k := by
    intro he
    exact hk (he ▸ List.mem_map_of_mem Prod.fst hkv)
  simpa using this

theorem removeFold_subset (ks : List Nat) :
    ∀ (c : List (Nat × Entry)) (evs : List Event),
      ∀ kv ∈ (ks.foldl remove_entry (c, evs)).1, kv ∈ c := by
  induction ks with
  | nil => intro c evs kv hkv; exact hkv
  | cons k t ih =>
    intro c evs kv hkv
    rcases hre : htRemoveFree c evs k with ⟨c', evs'⟩
    have hstep : remove_entry (c, evs) k = (c', evs') := hre
    rw [List.foldl_cons, hstep] at hkv
    have hsub : ∀ kw ∈ c', kw ∈ c := by
      intro kw hkw
      unfold htRemoveFree at hre
      cases hlk : htLookup c k with
      | none => rw [hlk] at hre; cases hre; exact hkw
      | some e =>
        rw [hlk] at hre
        cases hre
        exact (List.eraseP_sublist _).mem hkw
    exact hsub kv (ih c' evs' kv hkv)

end MemCache

namespace MemCache

theorem Inv_validate {backend : Backend} {now : Nat} {vmi : Vmi} {p : Nat} {entry : Entry}
    (hfind : htLookup vmi.memory_cache p = some entry) (h : Inv vmi) :
    Inv (validate_and_return_data backend now vmi entry).2 := by
  obtain ⟨hnd, hkc, hbal⟩ := h
  obtain ⟨l₁, l₂, hc, hl⟩ := htLookup_decomp hfind
  have hpk : entry.paddr = p := hkc (p, entry) (by rw [hc]; simp)
  have hl₂ : ∀ kv ∈ l₂, (kv.1 == p) = false := nodup_block (hc ▸ hnd)
  unfold validate_and_return_data
  by_cases hage : 0 < vmi.memory_cache_age ∧ vmi.memory_cache_age < now - entry.last_updated
  · rw [if_pos hage]
    dsimp only
    refine ⟨?_, ?_, ?_⟩
    · unfold keysNodup
      rw [keys_setEntry]
      exact hnd
    · rw [hpk, hc, setEntry_block _ hl hl₂]
      intro kv hkv
      rcases List.mem_append.mp hkv with h1 | h1
      · exact hkc kv (by rw [hc]; exact List.mem_append.mpr (Or.inl h1))
      · rcases List.mem_cons.mp h1 with h2 | h2
        · rw [h2]
        · exact hkc kv (by rw [hc]; exact List.mem_append.mpr (Or.inr (List.mem_cons.mpr (Or.inr h2))))
    · intro b l
      have hbal' := hbal b l
      rw [hc, residentCount_append, residentCount_cons] at hbal'
      dsimp only at hbal'
      rw [hpk, hc, setEntry_block _ hl hl₂]
      simp only [memory_cache_entry_free, List.append_assoc]
      rw [fetchedCount_append, releasedCount_append, residentCount_append, residentCount_cons]
      rw [fetchedCount_append, releasedCount_append]
      simp only [fetchedCount_release, releasedCount_release, fetchedCount_fetch,
        releasedCount_fetch, List.singleton_append]
      omega
  · rw [if_neg hage]
    dsimp only
    refine ⟨?_, ?_, ?_⟩
    · unfold keysNodup
      rw [keys_setEntry]
      exact hnd
    · rw [hpk, hc, setEntry_block _ hl hl₂]
      intro kv hkv
      rcases List.mem_append.mp hkv with h1 | h1
      · exact hkc kv (by rw [hc]; exact List.mem_append.mpr (Or.inl h1))
      · rcases List.mem_cons.mp h1 with h2 | h2
        · rw [h2]
        · exact hkc kv (by rw [hc]; exact List.mem_append.mpr (Or.inr (List.mem_cons.mpr (Or.inr h2))))
    · intro b l
      have hbal' := hbal b l
      rw [hc, residentCount_append, residentCount_cons] at hbal'
      dsimp only at hbal'
      rw [hpk, hc, setEntry_block _ hl hl₂]
      rw [residentCount_append, residentCount_cons]
      exact hbal'

theorem insert_miss_eq (backend : Backend) (now : Nat) (vmi : Vmi) (p : Nat)
    (halign : p = alignDown vmi.page_size p)
    (hmiss : htLookup vmi.memory_cache p = none)
    (hrej : hvmReject vmi p vmi.page_size = false) :
    memory_cache_insert backend now vmi p =
      (backend vmi.fetchCount p vmi.page_size,
       let vmi1 : Vmi :=
         { vmi with
             fetchCount := vmi.fetchCount + 1,
             events := vmi.events ++
               [Event.fetch p vmi.page_size (backend vmi.fetchCount p vmi.page_size)] }
       let vmi2 :=
         if vmi.memory_cache_size ≥ vmi.memory_cache_size_max then clean_cache vmi1 else vmi1
       { vmi2 with
           memory_cache :=
             (p, { paddr := p, length := vmi.page_size, last_updated := now,
                   last_used := now,
                   data := backend vmi.fetchCount p vmi.page_size }) :: vmi2.memory_cache,
           memory_cache_lru := p :: vmi2.memory_cache_lru,
           memory_cache_size := vmi2.memory_cache_size + 1 }) := by
  unfold memory_cache_insert create_new_entry get_memory_data
  rw [if_neg (by simp [← halign]), hmiss, if_neg (by simp [hrej])]

end MemCache

namespace MemCache

theorem destroy_release_map (c : List (Nat × Entry)) (b l : Nat) :
    releasedCount (c.map (fun kv => Event.release kv.2.data kv.2.length)) b l =
      residentCount c b l := by
  unfold releasedCount residentCount
  rw [List.countP_map]
  rfl

theorem destroy_fetch_map (c : List (Nat × Entry)) (b l : Nat) :
    fetchedCount (c.map (fun kv => Event.release kv.2.data kv.2.length)) b l = 0 := by
  unfold fetchedCount
  rw [List.countP_map]
  simp [List.countP_eq_zero]

theorem Inv_insert (backend : Backend) (now : Nat) (vmi : Vmi) (p : Nat)
    (h : Inv vmi) : Inv (memory_cache_insert backend now vmi p).2 := by
  obtain ⟨hnd, hkc, hbal⟩ := h
  by_cases halign : p = alignDown vmi.page_size p
  case neg =>
    unfold memory_cache_insert
    rw [if_pos halign]
    exact ⟨hnd, hkc, hbal⟩
  case pos =>
    cases hlk : htLookup vmi.memory_cache p with
    | some entry =>
      have hres : memory_cache_insert backend now vmi p =
          validate_and_return_data backend now vmi entry := by
        unfold memory_cache_insert
        rw [if_neg (by simp [← halign]), hlk]
      rw [hres]
      exact Inv_validate hlk ⟨hnd, hkc, hbal⟩
    | none =>
      by_cases hrej : hvmReject vmi p vmi.page_size = true
      · have hres : memory_cache_insert backend now vmi p = (none, vmi) := by
          unfold memory_cache_insert create_new_entry
          rw [if_neg (by simp [← halign]), hlk, if_pos hrej]
        rw [hres]
        exact ⟨hnd, hkc, hbal⟩
      · have hrej' : hvmReject vmi p vmi.page_size = false := by simpa using hrej
        rw [insert_miss_eq backend now vmi p halign hlk hrej']
        dsimp only
        by_cases hcap : vmi.memory_cache_size ≥ vmi.memory_cache_size_max
        · rw [if_pos hcap]
          unfold clean_cache
          dsimp only
          refine ⟨?_, ?_, ?_⟩
          · unfold keysNodup keys
            rw [List.map_cons]
            refine List.nodup_cons.mpr ⟨?_, ?_⟩
            · intro hmem
              have hkeys := keys_removeFold
                ((cleanLoop vmi.memory_cache_lru vmi.memory_cache_size
                  (vmi.memory_cache_size_max / 2)).2.1) vmi.memory_cache
                (vmi.events ++ [Event.fetch p vmi.page_size (backend vmi.fetchCount p vmi.page_size)])
              unfold keys at hkeys
              rw [hkeys] at hmem
              exact htLookup_eq_none hlk ((List.diff_sublist _ _).subset hmem)
            · have hkeys := keys_removeFold
                ((cleanLoop vmi.memory_cache_lru vmi.memory_cache_size
                  (vmi.memory_cache_size_max / 2)).2.1) vmi.memory_cache
                (vmi.events ++ [Event.fetch p vmi.page_size (backend vmi.fetchCount p vmi.page_size)])
              unfold keys at hkeys
              rw [hkeys]
              exact (List.diff_sublist _ _).nodup hnd
          · intro kv hkv
            rcases List.mem_cons.mp hkv with h1 | h1
            · rw [h1]
            · exact hkc kv (removeFold_subset _ vmi.memory_cache _ kv h1)
          · intro b l
            rw [residentCount_cons]
            have hf := fetched_removeFold
              ((cleanLoop vmi.memory_cache_lru vmi.memory_cache_size
                (vmi.memory_cache_size_max / 2)).2.1) vmi.memory_cache
              (vmi.events ++ [Event.fetch p vmi.page_size (backend vmi.fetchCount p vmi.page_size)]) b l
            have hs := sum_removeFold
              ((cleanLoop vmi.memory_cache_lru vmi.memory_cache_size
                (vmi.memory_cache_size_max / 2)).2.1) vmi.memory_cache
              (vmi.events ++ [Event.fetch p vmi.page_size (backend vmi.fetchCount p vmi.page_size)]) b l
            rw [fetchedCount_append, fetchedCount_fetch] at hf
            rw [releasedCount_append, releasedCount_fetch] at hs
            have hb := hbal b l
            dsimp only
            omega
        · rw [if_neg hcap]
          refine ⟨?_, ?_, ?_⟩
          · unfold keysNodup keys
            rw [List.map_cons]
            exact List.nodup_cons.mpr ⟨htLookup_eq_none hlk, hnd⟩
          · intro kv hkv
            rcases List.mem_cons.mp hkv with h1 | h1
            · rw [h1]
            · exact hkc kv h1
          · intro b l
            rw [residentCount_cons, fetchedCount_append, fetchedCount_fetch,
              releasedCount_append, releasedCount_fetch]
            have hb := hbal b l
            dsimp only
            omega

theorem Inv_remove (vmi : Vmi) (p : Nat) (h : Inv vmi) :
    Inv (memory_cache_remove vmi p) := by
  obtain ⟨hnd, hkc, hbal⟩ := h
  unfold memory_cache_remove
  by_cases halign : p ≠ alignDown vmi.page_size p
  · rw [if_pos halign]
    exact ⟨hnd, hkc, hbal⟩
  · rw [if_neg halign]
    dsimp only
    refine ⟨?_, ?_, ?_⟩
    · unfold keysNodup
      rw [keys_htRemoveFree]
      exact hnd.erase p
    · intro kv hkv
      refine hkc kv ?_
      unfold htRemoveFree at hkv
      cases hlk : htLookup vmi.memory_cache p with
      | none => rw [hlk] at hkv; exact hkv
      | some e =>
        rw [hlk] at hkv
        exact (List.eraseP_sublist _).mem hkv
    · intro b l
      dsimp only
      have hf := fetched_htRemoveFree vmi.memory_cache vmi.events p b l
      have hs := sum_htRemoveFree vmi.memory_cache vmi.events p b l
      have hb := hbal b l
      omega

theorem Inv_destroy (vmi : Vmi) (h : Inv vmi) : Inv (memory_cache_destroy vmi) := by
  obtain ⟨hnd, hkc, hbal⟩ := h
  unfold memory_cache_destroy
  refine ⟨by simp [keysNodup, keys], by intro kv hkv; simp at hkv, ?_⟩
  intro b l
  dsimp only
  rw [fetchedCount_append, releasedCount_append, destroy_release_map, destroy_fetch_map]
  have hb := hbal b l
  have hz : residentCount [] b l = 0 := rfl
  rw [hz]
  omega

theorem Inv_init (page_size : Nat) (hvm : Bool) (guest_size age_limit size_max : Nat) :
    Inv (memory_cache_init page_size hvm guest_size age_limit size_max) := by
  refine ⟨by simp [keysNodup, keys, memory_cache_init], by intro kv hkv; simp [memory_cache_init] at hkv, ?_⟩
  intro b l
  rfl

theorem Inv_step (backend : Backend) (vmi : Vmi) (op : Op) (h : Inv vmi) :
    Inv (step backend vmi op) := by
  cases op with
  | insert now p => exact Inv_insert backend now vmi p h
  | remove p => exact Inv_remove vmi p h
  | destroy => exact Inv_destroy vmi h

theorem Inv_run (backend : Backend) (init : Vmi) (ops : List Op) (h : Inv init) :
    Inv (run backend init ops) := by
  induction ops generalizing init with
  | nil => exact h
  | cons op t ih => exact ih (step backend init op) (Inv_step backend init op h)

end MemCache

/-! ## Claim theorems -/

/-- C1: in full-cache mode, any buffer obtained from the fetch callback
whose owning entry is no longer resident after a sequence of public
operations (it was removed by capacity eviction, explicit
memory_cache_remove, or memory_cache_destroy) has been released exactly
once, with the same length it was fetched with.  The hypotheses state
that the buffer b was fetched exactly once with length l during the run
and that no resident entry holds it at the end. -/
theorem C1_release_exactly_once (backend : MemCache.Backend) (page_size : Nat)
    (hvm : Bool) (guest_size age_limit size_max : Nat) (ops : List MemCache.Op)
    (b l : Nat)
    (hfetched : MemCache.fetchedCount
      (MemCache.run backend
        (MemCache.memory_cache_init page_size hvm guest_size age_limit size_max)
        ops).events b l = 1)
    (hgone : MemCache.residentCount
      (MemCache.run backend
        (MemCache.memory_cache_init page_size hvm guest_size age_limit size_max)
        ops).memory_cache b l = 0) :
    MemCache.releasedCount
      (MemCache.run backend
        (MemCache.memory_cache_init page_size hvm guest_size age_limit size_max)
        ops).events b l = 1 := by
  have h := MemCache.Inv_run backend
    (MemCache.memory_cache_init page_size hvm guest_size age_limit size_max) ops
    (MemCache.Inv_init page_size hvm guest_size age_limit size_max)
  have hb := h.2.2 b l
  omega

/-- Witness for C1 on the concrete trace insert(0x1000); destroy():
the single fetched buffer is released exactly once. -/
theorem C1_release_exactly_once_witness :
    MemCache.fetchedCount
      (MemCache.run (fun i _ _ => some (100 + i))
        (MemCache.memory_cache_init 4096 false 0 0 4)
        [MemCache.Op.insert 1 4096, MemCache.Op.destroy]).events 100 4096 = 1 ∧
    MemCache.residentCount
      (MemCache.run (fun i _ _ => some (100 + i))
        (MemCache.memory_cache_init 4096 false 0 0 4)
        [MemCache.Op.insert 1 4096, MemCache.Op.destroy]).memory_cache 100 4096 = 0 ∧
    MemCache.releasedCount
      (MemCache.run (fun i _ _ => some (100 + i))
        (MemCache.memory_cache_init 4096 false 0 0 4)
        [MemCache.Op.insert 1 4096, MemCache.Op.destroy]).events 100 4096 = 1 :=
  ⟨by decide, by decide,
    C1_release_exactly_once (fun i _ _ => some (100 + i)) 4096 false 0 0 4
      [MemCache.Op.insert 1 4096, MemCache.Op.destroy] 100 4096
      (by decide) (by decide)⟩

/-- C10: the eviction loop of clean_cache terminates on every cache
state: it performs exactly memory_cache_size - memory_cache_size_max/2
iterations (truncated subtraction, so zero when already at or below the
threshold), decrementing the size counter by one per iteration down to
the threshold, regardless of how short the lru list is. -/
theorem C10_clean_cache_terminates (vmi : MemCache.Vmi) :
    (MemCache.cleanLoop vmi.memory_cache_lru vmi.memory_cache_size
        (vmi.memory_cache_size_max / 2)).2.2.2 =
      vmi.memory_cache_size - vmi.memory_cache_size_max / 2 ∧
    (MemCache.clean_cache vmi).memory_cache_size =
      vmi.memory_cache_size -
        (vmi.memory_cache_size - vmi.memory_cache_size_max / 2) := by
  constructor
  · rw [MemCache.cleanLoop_eq]
  · unfold MemCache.clean_cache
    dsimp only
    rw [MemCache.cleanLoop_eq]

/-- C2 is falsified by memory_cache_remove: after insert(0x1000) then
remove(0x1000) the size counter is still 1 and the lru list still holds
the key, while the index is empty, so size, the index cardinality and
the lru length disagree. -/
theorem C2_counterexample :
    (MemCache.run (fun i _ _ => some (100 + i))
      (MemCache.memory_cache_init 4096 false 0 0 4)
      [MemCache.Op.insert 1 4096, MemCache.Op.remove 4096]).memory_cache_size = 1 ∧
    (MemCache.run (fun i _ _ => some (100 + i))
      (MemCache.memory_cache_init 4096 false 0 0 4)
      [MemCache.Op.insert 1 4096, MemCache.Op.remove 4096]).memory_cache = [] ∧
    (MemCache.run (fun i _ _ => some (100 + i))
      (MemCache.memory_cache_init 4096 false 0 0 4)
      [MemCache.Op.insert 1 4096, MemCache.Op.remove 4096]).memory_cache_lru = [4096] := by
  refine ⟨by decide, by decide, by decide⟩

/-- C3 is falsified on its concrete scenario: after insert(0x1000) then
remove(0x1000) the release callback has run once and the index is empty,
but the lru list still contains 0x1000 and the size counter is still 1,
not 0. -/
theorem C3_counterexample :
    (MemCache.run (fun i _ _ => some (200 + i))
      (MemCache.memory_cache_init 4096 false 0 0 4)
      [MemCache.Op.insert 2 4096, MemCache.Op.remove 4096]).memory_cache = [] ∧
    MemCache.releasedCount
      (MemCache.run (fun i _ _ => some (200 + i))
        (MemCache.memory_cache_init 4096 false 0 0 4)
        [MemCache.Op.insert 2 4096, MemCache.Op.remove 4096]).events 200 4096 = 1 ∧
    (MemCache.run (fun i _ _ => some (200 + i))
      (MemCache.memory_cache_init 4096 false 0 0 4)
      [MemCache.Op.insert 2 4096, MemCache.Op.remove 4096]).memory_cache_lru = [4096] ∧
    (MemCache.run (fun i _ _ => some (200 + i))
      (MemCache.memory_cache_init 4096 false 0 0 4)
      [MemCache.Op.insert 2 4096, MemCache.Op.remove 4096]).memory_cache_size = 1 := by
  refine ⟨by decide, by decide, by decide, by decide⟩

/-- C4 is falsified when the fetch callback returns null on a miss:
memory_cache_insert does return null, but an entry with a null buffer is
created and inserted, and the index, the lru list and the size counter
are all mutated. -/
theorem C4_counterexample :
    (MemCache.memory_cache_insert (fun _ _ _ => none) 1
      (MemCache.memory_cache_init 4096 false 0 0 4) 4096).1 = none ∧
    (MemCache.memory_cache_insert (fun _ _ _ => none) 1
      (MemCache.memory_cache_init 4096 false 0 0 4) 4096).2.memory_cache_size = 1 ∧
    (MemCache.memory_cache_insert (fun _ _ _ => none) 1
      (MemCache.memory_cache_init 4096 false 0 0 4) 4096).2.memory_cache_lru = [4096] ∧
    (MemCache.memory_cache_insert (fun _ _ _ => none) 1
      (MemCache.memory_cache_init 4096 false 0 0 4) 4096).2.memory_cache ≠ [] := by
  refine ⟨by decide, by decide, by decide, by decide⟩

/-- C6 is falsified: a cache hit with age_limit = 0 does not promote the
key to the head of the lru list.  After insert(0x1000) at time 1,
insert(0x2000) at time 2, insert(0x1000) again at time 3, the lru list
is still [0x2000, 0x1000] although 0x1000 has the larger last_used, so
the list is not ordered by descending last_used either. -/
theorem C6_counterexample :
    (MemCache.run (fun i _ _ => some (300 + i))
      (MemCache.memory_cache_init 4096 false 0 0 4)
      [MemCache.Op.insert 1 4096, MemCache.Op.insert 2 8192,
       MemCache.Op.insert 3 4096]).memory_cache_lru = [8192, 4096] ∧
    (MemCache.htLookup
      (MemCache.run (fun i _ _ => some (300 + i))
        (MemCache.memory_cache_init 4096 false 0 0 4)
        [MemCache.Op.insert 1 4096, MemCache.Op.insert 2 8192,
         MemCache.Op.insert 3 4096]).memory_cache 4096).map MemCache.Entry.last_used =
      some 3 ∧
    (MemCache.htLookup
      (MemCache.run (fun i _ _ => some (300 + i))
        (MemCache.memory_cache_init 4096 false 0 0 4)
        [MemCache.Op.insert 1 4096, MemCache.Op.insert 2 8192,
         MemCache.Op.insert 3 4096]).memory_cache 8192).map MemCache.Entry.last_used =
      some 2 := by
  refine ⟨by decide, by decide, by decide⟩

/-- C8 is falsified at the boundary: with an HVM guest, page_size
0x1000 and declared memory size 0x1fff, the miss insert(0x1000) requests
the range from 0x1000 to 0x2000, which extends past the declared size
(0x1000 + 0x1000 exceeds 0x1fff), yet the code checks
paddr + length - 1 > size, finds 0x1fff > 0x1fff false, invokes the
fetch callback and returns its buffer instead of null. -/
theorem C8_counterexample :
    (MemCache.memory_cache_insert (fun i _ _ => some (400 + i)) 0
      (MemCache.memory_cache_init 4096 true 8191 0 4) 4096).2.fetchCount = 1 ∧
    (MemCache.memory_cache_insert (fun i _ _ => some (400 + i)) 0
      (MemCache.memory_cache_init 4096 true 8191 0 4) 4096).1 = some 400 ∧
    4096 + 4096 > 8191 := by
  refine ⟨by decide, by decide, by decide⟩

/-- C9 is falsified when the stored key is 0: in degenerate mode,
insert(0) stores a live buffer under key 0; a subsequent
insert(0x1000) must, per the claim, release that live buffer first, but
the code guards the release with the truthiness of the key, so no
release happens and the buffer leaks. -/
theorem C9_counterexample :
    (NoCache.memory_cache_insert (fun i _ _ => some (500 + i))
      (NoCache.memory_cache_init 4096) 0).2.last_used_page = some 500 ∧
    MemCache.releasedTotal
      (NoCache.memory_cache_insert (fun i _ _ => some (500 + i))
        (NoCache.memory_cache_insert (fun i _ _ => some (500 + i))
          (NoCache.memory_cache_init 4096) 0).2 4096).2.events = 0 ∧
    (NoCache.memory_cache_insert (fun i _ _ => some (500 + i))
      (NoCache.memory_cache_insert (fun i _ _ => some (500 + i))
        (NoCache.memory_cache_init 4096) 0).2 4096).2.fetchCount = 2 := by
  refine ⟨by decide, by decide, by decide⟩

namespace MemCache

theorem htLookup_setEntry {c : List (Nat × Entry)} {k : Nat} {e : Entry}
    (e' : Entry) (h : htLookup c k = some e) :
    htLookup (setEntry c k e') k = some e' := by
  obtain ⟨l₁, l₂, rfl, hl⟩ := htLookup_decomp h
  rw [setEntry_append, setEntry_of_forall e' hl, setEntry_cons, if_pos (by simp)]
  exact htLookup_block hl

theorem clean_cache_fetchCount (vmi : Vmi) :
    (clean_cache vmi).fetchCount = vmi.fetchCount := rfl

theorem insert_hit_eq (backend : Backend) (now : Nat) (vmi : Vmi) (p : Nat)
    (e : Entry) (halign : p = alignDown vmi.page_size p)
    (hfind : htLookup vmi.memory_cache p = some e) :
    memory_cache_insert backend now vmi p =
      validate_and_return_data backend now vmi e := by
  unfold memory_cache_insert
  rw [if_neg (by simp [← halign]), hfind]

end MemCache

/-- C3 amended: for an aligned paddr, memory_cache_remove removes the
matching entry from the index only, triggering the release callback on
its buffer, and is a no-op when the key is absent; it does not touch
the lru list and does not decrement the size counter, so after
insert(p); remove(p) the index is empty but size is still 1 and the lru
list still holds p. -/
theorem C3_remove_index_only (vmi : MemCache.Vmi) (paddr : Nat)
    (halign : paddr = MemCache.alignDown vmi.page_size paddr) :
    (MemCache.memory_cache_remove vmi paddr).memory_cache_lru = vmi.memory_cache_lru ∧
    (MemCache.memory_cache_remove vmi paddr).memory_cache_size = vmi.memory_cache_size ∧
    (∀ e, MemCache.htLookup vmi.memory_cache paddr = some e →
      (MemCache.memory_cache_remove vmi paddr).memory_cache =
        vmi.memory_cache.eraseP (fun kv => kv.1 == paddr) ∧
      (MemCache.memory_cache_remove vmi paddr).events =
        vmi.events ++ [MemCache.Event.release e.data e.length]) ∧
    (MemCache.htLookup vmi.memory_cache paddr = none →
      MemCache.memory_cache_remove vmi paddr = vmi) := by
  unfold MemCache.memory_cache_remove
  rw [if_neg (by simp [← halign])]
  dsimp only
  refine ⟨?_, ?_, ?_, ?_⟩
  · rfl
  · rfl
  · intro e he
    unfold MemCache.htRemoveFree
    rw [he]
    exact ⟨rfl, rfl⟩
  · intro he
    unfold MemCache.htRemoveFree
    rw [he]

/-- Witness for the amended C3 at the concrete scenario state after
insert(0x1000). -/
theorem C3_remove_index_only_witness :
    4096 = MemCache.alignDown
      (MemCache.run (fun i _ _ => some (210 + i))
        (MemCache.memory_cache_init 4096 false 0 0 4)
        [MemCache.Op.insert 1 4096]).page_size 4096 ∧
    ((MemCache.memory_cache_remove
        (MemCache.run (fun i _ _ => some (210 + i))
          (MemCache.memory_cache_init 4096 false 0 0 4)
          [MemCache.Op.insert 1 4096]) 4096).memory_cache_lru =
      (MemCache.run (fun i _ _ => some (210 + i))
        (MemCache.memory_cache_init 4096 false 0 0 4)
        [MemCache.Op.insert 1 4096]).memory_cache_lru ∧
     (MemCache.memory_cache_remove
        (MemCache.run (fun i _ _ => some (210 + i))
          (MemCache.memory_cache_init 4096 false 0 0 4)
          [MemCache.Op.insert 1 4096]) 4096).memory_cache_size =
      (MemCache.run (fun i _ _ => some (210 + i))
        (MemCache.memory_cache_init 4096 false 0 0 4)
        [MemCache.Op.insert 1 4096]).memory_cache_size ∧
     (∀ e, MemCache.htLookup
        (MemCache.run (fun i _ _ => some (210 + i))
          (MemCache.memory_cache_init 4096 false 0 0 4)
          [MemCache.Op.insert 1 4096]).memory_cache 4096 = some e →
       (MemCache.memory_cache_remove
          (MemCache.run (fun i _ _ => some (210 + i))
            (MemCache.memory_cache_init 4096 false 0 0 4)
            [MemCache.Op.insert 1 4096]) 4096).memory_cache =
         (MemCache.run (fun i _ _ => some (210 + i))
           (MemCache.memory_cache_init 4096 false 0 0 4)
           [MemCache.Op.insert 1 4096]).memory_cache.eraseP (fun kv => kv.1 == 4096) ∧
       (MemCache.memory_cache_remove
          (MemCache.run (fun i _ _ => some (210 + i))
            (MemCache.memory_cache_init 4096 false 0 0 4)
            [MemCache.Op.insert 1 4096]) 4096).events =
         (MemCache.run (fun i _ _ => some (210 + i))
           (MemCache.memory_cache_init 4096 false 0 0 4)
           [MemCache.Op.insert 1 4096]).events ++
           [MemCache.Event.release e.data e.length]) ∧
     (MemCache.htLookup
        (MemCache.run (fun i _ _ => some (210 + i))
          (MemCache.memory_cache_init 4096 false 0 0 4)
          [MemCache.Op.insert 1 4096]).memory_cache 4096 = none →
       MemCache.memory_cache_remove
          (MemCache.run (fun i _ _ => some (210 + i))
            (MemCache.memory_cache_init 4096 false 0 0 4)
            [MemCache.Op.insert 1 4096]) 4096 =
         MemCache.run (fun i _ _ => some (210 + i))
           (MemCache.memory_cache_init 4096 false 0 0 4)
           [MemCache.Op.insert 1 4096])) :=
  ⟨by decide,
   C3_remove_index_only
     (MemCache.run (fun i _ _ => some (210 + i))
       (MemCache.memory_cache_init 4096 false 0 0 4)
       [MemCache.Op.insert 1 4096]) 4096 (by decide)⟩

/-- C4 amended: when the fetch callback returns null on a cache miss
(aligned paddr, no HVM rejection, cache below capacity so no eviction
interferes), memory_cache_insert returns null, but an entry holding a
null buffer is nevertheless created and inserted: the index gains the
entry, the lru list gains the key, and memory_cache_size is
incremented. -/
theorem C4_null_fetch_still_inserts (backend : MemCache.Backend) (now : Nat)
    (vmi : MemCache.Vmi) (p : Nat)
    (halign : p = MemCache.alignDown vmi.page_size p)
    (hmiss : MemCache.htLookup vmi.memory_cache p = none)
    (hrej : MemCache.hvmReject vmi p vmi.page_size = false)
    (hcap : vmi.memory_cache_size < vmi.memory_cache_size_max)
    (hfetch : backend vmi.fetchCount p vmi.page_size = none) :
    (MemCache.memory_cache_insert backend now vmi p).1 = none ∧
    (MemCache.memory_cache_insert backend now vmi p).2.memory_cache =
      (p, { paddr := p, length := vmi.page_size, last_updated := now,
            last_used := now, data := none }) :: vmi.memory_cache ∧
    (MemCache.memory_cache_insert backend now vmi p).2.memory_cache_lru =
      p :: vmi.memory_cache_lru ∧
    (MemCache.memory_cache_insert backend now vmi p).2.memory_cache_size =
      vmi.memory_cache_size + 1 := by
  rw [MemCache.insert_miss_eq backend now vmi p halign hmiss hrej]
  dsimp only
  rw [if_neg (by omega), hfetch]
  exact ⟨rfl, rfl, rfl, rfl⟩

/-- Witness for the amended C4: a null fetch on a fresh cache returns
null but grows all three structures. -/
theorem C4_null_fetch_still_inserts_witness :
    4096 = MemCache.alignDown
      (MemCache.memory_cache_init 4096 false 0 0 4).page_size 4096 ∧
    MemCache.htLookup (MemCache.memory_cache_init 4096 false 0 0 4).memory_cache 4096 = none ∧
    MemCache.hvmReject (MemCache.memory_cache_init 4096 false 0 0 4) 4096
      (MemCache.memory_cache_init 4096 false 0 0 4).page_size = false ∧
    (MemCache.memory_cache_init 4096 false 0 0 4).memory_cache_size <
      (MemCache.memory_cache_init 4096 false 0 0 4).memory_cache_size_max ∧
    ((MemCache.memory_cache_insert (fun _ _ _ => none) 7
       (MemCache.memory_cache_init 4096 false 0 0 4) 4096).1 = none ∧
     (MemCache.memory_cache_insert (fun _ _ _ => none) 7
       (MemCache.memory_cache_init 4096 false 0 0 4) 4096).2.memory_cache =
       (4096, { paddr := 4096, length := (MemCache.memory_cache_init 4096 false 0 0 4).page_size,
                last_updated := 7, last_used := 7, data := none }) ::
         (MemCache.memory_cache_init 4096 false 0 0 4).memory_cache ∧
     (MemCache.memory_cache_insert (fun _ _ _ => none) 7
       (MemCache.memory_cache_init 4096 false 0 0 4) 4096).2.memory_cache_lru =
       4096 :: (MemCache.memory_cache_init 4096 false 0 0 4).memory_cache_lru ∧
     (MemCache.memory_cache_insert (fun _ _ _ => none) 7
       (MemCache.memory_cache_init 4096 false 0 0 4) 4096).2.memory_cache_size =
       (MemCache.memory_cache_init 4096 false 0 0 4).memory_cache_size + 1) :=
  ⟨by decide, by decide, by decide, by decide,
   C4_null_fetch_still_inserts (fun _ _ _ => none) 7
     (MemCache.memory_cache_init 4096 false 0 0 4) 4096
     (by decide) (by decide) (by decide) (by decide) (by decide)⟩

/-- C6 amended: a memory_cache_insert that hits an existing entry and
does not trigger the staleness refresh (in particular whenever
age_limit is 0) leaves the lru list completely unchanged — the key is
not promoted to the head — and only updates the entry's last_used
timestamp and returns its buffer; consequently the lru list reflects
insertion and refresh order, not last_used order. -/
theorem C6_hit_does_not_promote (backend : MemCache.Backend) (now : Nat)
    (vmi : MemCache.Vmi) (p : Nat) (e : MemCache.Entry)
    (halign : p = MemCache.alignDown vmi.page_size p)
    (hfind : MemCache.htLookup vmi.memory_cache p = some e)
    (hpk : e.paddr = p)
    (hfresh : ¬(0 < vmi.memory_cache_age ∧
      vmi.memory_cache_age < now - e.last_updated)) :
    (MemCache.memory_cache_insert backend now vmi p).1 = e.data ∧
    (MemCache.memory_cache_insert backend now vmi p).2.memory_cache_lru =
      vmi.memory_cache_lru ∧
    (MemCache.memory_cache_insert backend now vmi p).2.events = vmi.events ∧
    (MemCache.memory_cache_insert backend now vmi p).2.fetchCount = vmi.fetchCount ∧
    MemCache.htLookup
      (MemCache.memory_cache_insert backend now vmi p).2.memory_cache p =
      some { e with last_used := now } := by
  rw [MemCache.insert_hit_eq backend now vmi p e halign hfind]
  unfold MemCache.validate_and_return_data
  rw [if_neg hfresh]
  refine ⟨rfl, rfl, rfl, rfl, ?_⟩
  dsimp only
  rw [hpk]
  exact MemCache.htLookup_setEntry _ hfind


/-- Witness for the amended C6: on the concrete one-entry cache with
age_limit 0, a hit at time 9 leaves the lru unchanged and does not
fetch. -/
theorem C6_hit_does_not_promote_witness :
    (4096 = MemCache.alignDown (MemCache.wstate 0 300).page_size 4096 ∧
     MemCache.htLookup (MemCache.wstate 0 300).memory_cache 4096 =
       some (MemCache.wentry 300) ∧
     (MemCache.wentry 300).paddr = 4096 ∧
     ¬(0 < (MemCache.wstate 0 300).memory_cache_age ∧
       (MemCache.wstate 0 300).memory_cache_age <
         9 - (MemCache.wentry 300).last_updated)) ∧
    ((MemCache.memory_cache_insert (MemCache.wbackend 300) 9
        (MemCache.wstate 0 300) 4096).1 = (MemCache.wentry 300).data ∧
     (MemCache.memory_cache_insert (MemCache.wbackend 300) 9
        (MemCache.wstate 0 300) 4096).2.memory_cache_lru =
       (MemCache.wstate 0 300).memory_cache_lru ∧
     (MemCache.memory_cache_insert (MemCache.wbackend 300) 9
        (MemCache.wstate 0 300) 4096).2.events = (MemCache.wstate 0 300).events ∧
     (MemCache.memory_cache_insert (MemCache.wbackend 300) 9
        (MemCache.wstate 0 300) 4096).2.fetchCount =
       (MemCache.wstate 0 300).fetchCount ∧
     MemCache.htLookup
       (MemCache.memory_cache_insert (MemCache.wbackend 300) 9
         (MemCache.wstate 0 300) 4096).2.memory_cache 4096 =
       some { MemCache.wentry 300 with last_used := 9 }) :=
  ⟨by refine ⟨by decide, by decide, by decide, by decide⟩,
   C6_hit_does_not_promote (MemCache.wbackend 300) 9 (MemCache.wstate 0 300) 4096
     (MemCache.wentry 300) (by decide) (by decide) (by decide) (by decide)⟩

/-- C7: in full-cache mode, a hit on entry e: with age_limit = 0 the
insert never calls fetch again, whatever the elapsed time; with
age_limit = T greater than 0 and a hit more than T seconds after
last_updated, the old buffer is released, fetch is called exactly once
with the same paddr and length, last_updated is set to now, and the
entry's key is moved to the head of the lru list. -/
theorem C7_age_limit (backend : MemCache.Backend) (now : Nat)
    (vmi : MemCache.Vmi) (p : Nat) (e : MemCache.Entry)
    (halign : p = MemCache.alignDown vmi.page_size p)
    (hfind : MemCache.htLookup vmi.memory_cache p = some e)
    (hpk : e.paddr = p) (hmem : p ∈ vmi.memory_cache_lru) :
    (vmi.memory_cache_age = 0 →
      (MemCache.memory_cache_insert backend now vmi p).1 = e.data ∧
      (MemCache.memory_cache_insert backend now vmi p).2.fetchCount =
        vmi.fetchCount ∧
      (MemCache.memory_cache_insert backend now vmi p).2.events = vmi.events) ∧
    (∀ T, vmi.memory_cache_age = T → 0 < T → T < now - e.last_updated →
      (MemCache.memory_cache_insert backend now vmi p).1 =
        backend vmi.fetchCount p e.length ∧
      (MemCache.memory_cache_insert backend now vmi p).2.events =
        vmi.events ++ [MemCache.Event.release e.data e.length,
          MemCache.Event.fetch p e.length (backend vmi.fetchCount p e.length)] ∧
      (MemCache.memory_cache_insert backend now vmi p).2.fetchCount =
        vmi.fetchCount + 1 ∧
      MemCache.htLookup
        (MemCache.memory_cache_insert backend now vmi p).2.memory_cache p =
        some { e with
          data := backend vmi.fetchCount p e.length,
          last_updated := now, last_used := now } ∧
      (MemCache.memory_cache_insert backend now vmi p).2.memory_cache_lru =
        p :: vmi.memory_cache_lru.erase p) := by
  rw [MemCache.insert_hit_eq backend now vmi p e halign hfind]
  constructor
  · intro hage
    unfold MemCache.validate_and_return_data
    rw [if_neg (by simp [hage])]
    exact ⟨rfl, rfl, rfl⟩
  · intro T hT hTpos hstale
    have hcond : 0 < vmi.memory_cache_age ∧
        vmi.memory_cache_age < now - e.last_updated := by
      rw [hT]
      exact ⟨hTpos, hstale⟩
    unfold MemCache.validate_and_return_data
    rw [if_pos hcond]
    dsimp only
    rw [hpk]
    refine ⟨rfl, ?_, rfl, ?_, ?_⟩
    · simp [MemCache.memory_cache_entry_free]
    · exact MemCache.htLookup_setEntry _ hfind
    · rw [if_pos (by simpa [List.contains, List.elem_iff] using hmem)]

/-- Witness for C7 on concrete one-entry caches: with age_limit 0 a hit
at time 9 performs no fetch; with age_limit 1 a hit at time 9 (more
than 1 second after last_updated 1) increments the fetch counter and
moves the key to the lru head. -/
theorem C7_age_limit_witness :
    (4096 = MemCache.alignDown (MemCache.wstate 0 330).page_size 4096 ∧
     MemCache.htLookup (MemCache.wstate 0 330).memory_cache 4096 =
       some (MemCache.wentry 330) ∧
     (MemCache.wentry 330).paddr = 4096 ∧
     4096 ∈ (MemCache.wstate 0 330).memory_cache_lru ∧
     (MemCache.wstate 0 330).memory_cache_age = 0 ∧
     (MemCache.wstate 1 340).memory_cache_age = 1 ∧
     0 < 1 ∧ 1 < 9 - (MemCache.wentry 340).last_updated) ∧
    (MemCache.memory_cache_insert (MemCache.wbackend 330) 9
      (MemCache.wstate 0 330) 4096).2.fetchCount =
      (MemCache.wstate 0 330).fetchCount ∧
    (MemCache.memory_cache_insert (MemCache.wbackend 340) 9
      (MemCache.wstate 1 340) 4096).2.fetchCount =
      (MemCache.wstate 1 340).fetchCount + 1 ∧
    (MemCache.memory_cache_insert (MemCache.wbackend 340) 9
      (MemCache.wstate 1 340) 4096).2.memory_cache_lru =
      4096 :: (MemCache.wstate 1 340).memory_cache_lru.erase 4096 :=
  ⟨⟨by decide, by decide, by decide, by decide, by decide, by decide, by decide, by decide⟩,
   ((C7_age_limit (MemCache.wbackend 330) 9 (MemCache.wstate 0 330) 4096
       (MemCache.wentry 330) (by decide) (by decide) (by decide) (by decide)).1
     (by decide)).2.1,
   ((C7_age_limit (MemCache.wbackend 340) 9 (MemCache.wstate 1 340) 4096
       (MemCache.wentry 340) (by decide) (by decide) (by decide) (by decide)).2
     1 (by decide) (by decide) (by decide)).2.2.1,
   ((C7_age_limit (MemCache.wbackend 340) 9 (MemCache.wstate 1 340) 4096
       (MemCache.wentry 340) (by decide) (by decide) (by decide) (by decide)).2
     1 (by decide) (by decide) (by decide)).2.2.2.2⟩

/-- C8 amended: on a miss with vmi->hvm true, the bounds check rejects
(returns null without invoking fetch, leaving the state unchanged)
exactly when paddr + page_size - 1 is greater than vmi->size (uint64
arithmetic) — not when the range merely extends past vmi->size, which
would be paddr + page_size greater than vmi->size; when the check
passes, and always when vmi->hvm is false, the fetch callback is
invoked. -/
theorem C8_hvm_bounds_check (backend : MemCache.Backend) (now : Nat)
    (vmi : MemCache.Vmi) (p : Nat)
    (halign : p = MemCache.alignDown vmi.page_size p)
    (hmiss : MemCache.htLookup vmi.memory_cache p = none) :
    (vmi.hvm = true → MemCache.u64 (p + vmi.page_size + (MemCache.U64 - 1)) > vmi.size →
      MemCache.memory_cache_insert backend now vmi p = (none, vmi)) ∧
    (vmi.hvm = true →
      ¬ MemCache.u64 (p + vmi.page_size + (MemCache.U64 - 1)) > vmi.size →
      (MemCache.memory_cache_insert backend now vmi p).2.fetchCount =
        vmi.fetchCount + 1) ∧
    (vmi.hvm = false →
      (MemCache.memory_cache_insert backend now vmi p).2.fetchCount =
        vmi.fetchCount + 1) := by
  refine ⟨?_, ?_, ?_⟩
  · intro hhvm hout
    unfold MemCache.memory_cache_insert MemCache.create_new_entry
    rw [if_neg (by simp [← halign]), hmiss,
      if_pos (by simp [MemCache.hvmReject, hhvm, hout])]
  · intro hhvm hin
    rw [MemCache.insert_miss_eq backend now vmi p halign hmiss
      (by simp [MemCache.hvmReject, hhvm, hin])]
    dsimp only
    by_cases hcap : vmi.memory_cache_size ≥ vmi.memory_cache_size_max
    · rw [if_pos hcap]
      rw [MemCache.clean_cache_fetchCount]
    · rw [if_neg hcap]
  · intro hhvm
    rw [MemCache.insert_miss_eq backend now vmi p halign hmiss
      (by simp [MemCache.hvmReject, hhvm])]
    dsimp only
    by_cases hcap : vmi.memory_cache_size ≥ vmi.memory_cache_size_max
    · rw [if_pos hcap]
      rw [MemCache.clean_cache_fetchCount]
    · rw [if_neg hcap]

/-- Witness for the amended C8: with page_size 0x1000 and declared size
0x1fff, insert(0x2000) is rejected without fetching (0x2fff is greater
than 0x1fff) while insert(0x1000) fetches (0x1fff is not greater than
0x1fff); with hvm false, insert(0x2000) also fetches. -/
theorem C8_hvm_bounds_check_witness :
    (8192 = MemCache.alignDown
       (MemCache.memory_cache_init 4096 true 8191 0 4).page_size 8192 ∧
     MemCache.htLookup
       (MemCache.memory_cache_init 4096 true 8191 0 4).memory_cache 8192 = none ∧
     (MemCache.memory_cache_init 4096 true 8191 0 4).hvm = true ∧
     MemCache.u64 (8192 + 4096 + (MemCache.U64 - 1)) > 8191 ∧
     ¬ MemCache.u64 (4096 + 4096 + (MemCache.U64 - 1)) > 8191 ∧
     (MemCache.memory_cache_init 4096 false 8191 0 4).hvm = false) ∧
    MemCache.memory_cache_insert (MemCache.wbackend 410) 0
      (MemCache.memory_cache_init 4096 true 8191 0 4) 8192 =
      (none, MemCache.memory_cache_init 4096 true 8191 0 4) ∧
    (MemCache.memory_cache_insert (MemCache.wbackend 410) 0
      (MemCache.memory_cache_init 4096 true 8191 0 4) 4096).2.fetchCount =
      (MemCache.memory_cache_init 4096 true 8191 0 4).fetchCount + 1 ∧
    (MemCache.memory_cache_insert (MemCache.wbackend 410) 0
      (MemCache.memory_cache_init 4096 false 8191 0 4) 8192).2.fetchCount =
      (MemCache.memory_cache_init 4096 false 8191 0 4).fetchCount + 1 :=
  ⟨⟨by decide, by decide, by decide, by decide, by decide, by decide⟩,
   (C8_hvm_bounds_check (MemCache.wbackend 410) 0
      (MemCache.memory_cache_init 4096 true 8191 0 4) 8192
      (by decide) (by decide)).1 (by decide) (by decide),
   (C8_hvm_bounds_check (MemCache.wbackend 410) 0
      (MemCache.memory_cache_init 4096 true 8191 0 4) 4096
      (by decide) (by decide)).2.1 (by decide) (by decide),
   (C8_hvm_bounds_check (MemCache.wbackend 410) 0
      (MemCache.memory_cache_init 4096 false 8191 0 4) 8192
      (by decide) (by decide)).2.2 (by decide)⟩

/-- C9 amended: in degenerate single-slot mode, insert(p) with p equal
to the stored key and an occupied slot returns the stored buffer
unchanged without calling fetch; insert(q) on any other state fetches q
and stores it, but the release of the previously stored buffer happens
only when the stored key is nonzero and the slot is occupied — a live
buffer stored under key 0 is not released. -/
theorem C9_degenerate_insert (backend : MemCache.Backend) (vmi : NoCache.Vmi)
    (q : Nat) :
    (q = vmi.last_used_page_key ∧ vmi.last_used_page.isSome →
      NoCache.memory_cache_insert backend vmi q = (vmi.last_used_page, vmi)) ∧
    (¬(q = vmi.last_used_page_key ∧ vmi.last_used_page.isSome) →
      (NoCache.memory_cache_insert backend vmi q).1 =
        backend vmi.fetchCount q vmi.page_size ∧
      (NoCache.memory_cache_insert backend vmi q).2.last_used_page =
        backend vmi.fetchCount q vmi.page_size ∧
      (NoCache.memory_cache_insert backend vmi q).2.last_used_page_key = q ∧
      (NoCache.memory_cache_insert backend vmi q).2.fetchCount =
        vmi.fetchCount + 1 ∧
      (NoCache.memory_cache_insert backend vmi q).2.events =
        (if vmi.last_used_page_key ≠ 0 ∧ vmi.last_used_page.isSome then
          vmi.events ++ [MemCache.Event.release vmi.last_used_page vmi.page_size]
         else vmi.events) ++
          [MemCache.Event.fetch q vmi.page_size
            (backend vmi.fetchCount q vmi.page_size)]) := by
  constructor
  · intro hhit
    unfold NoCache.memory_cache_insert
    rw [if_pos hhit]
  · intro hmiss
    unfold NoCache.memory_cache_insert
    rw [if_neg hmiss]
    exact ⟨rfl, rfl, rfl, rfl, rfl⟩

/-- Witness for the amended C9: a repeated insert of the same key
returns the slot unchanged; an insert of a different key after
insert(0) fetches without releasing the live buffer stored under
key 0. -/
theorem C9_degenerate_insert_witness :
    ((4096 : Nat) = 4096 ∧
     (NoCache.Vmi.mk 4096 4096 (some 600) 1 []).last_used_page.isSome) ∧
    NoCache.memory_cache_insert (MemCache.wbackend 610)
      (NoCache.Vmi.mk 4096 4096 (some 600) 1 []) 4096 =
      (some 600, NoCache.Vmi.mk 4096 4096 (some 600) 1 []) ∧
    ((NoCache.memory_cache_insert (MemCache.wbackend 610)
        (NoCache.Vmi.mk 4096 0 (some 600) 1 []) 8192).2.fetchCount = 2 ∧
     (NoCache.memory_cache_insert (MemCache.wbackend 610)
        (NoCache.Vmi.mk 4096 0 (some 600) 1 []) 8192).2.events =
       [MemCache.Event.fetch 8192 4096 (some 611)]) :=
  ⟨⟨rfl, by decide⟩,
   (C9_degenerate_insert (MemCache.wbackend 610)
      (NoCache.Vmi.mk 4096 4096 (some 600) 1 []) 4096).1 ⟨rfl, by decide⟩,
   by
     have h := (C9_degenerate_insert (MemCache.wbackend 610)
       (NoCache.Vmi.mk 4096 0 (some 600) 1 []) 8192).2 (by decide)
     exact ⟨h.2.2.2.1, by rw [h.2.2.2.2]; decide⟩⟩

namespace MemCache

theorem setEntry_length (c : List (Nat × Entry)) (k : Nat) (e : Entry) :
    (setEntry c k e).length = c.length := by
  simp [setEntry]

theorem consistent_validate {backend : Backend} {now : Nat} {vmi : Vmi} {p : Nat}
    {entry : Entry} (hfind : htLookup vmi.memory_cache p = some entry)
    (hpk : entry.paddr = p) (hc : consistent vmi) :
    consistent (validate_and_return_data backend now vmi entry).2 := by
  obtain ⟨hsz1, hsz2, hperm, hnd⟩ := hc
  have hpkeys : p ∈ keys vmi.memory_cache := by
    obtain ⟨l₁, l₂, hceq, hl⟩ := htLookup_decomp hfind
    rw [hceq]
    unfold keys
    simp
  have hplru : p ∈ vmi.memory_cache_lru := hperm.mem_iff.mpr hpkeys
  have hlen : 0 < vmi.memory_cache_lru.length := List.length_pos_of_mem hplru
  unfold validate_and_return_data
  by_cases hage : 0 < vmi.memory_cache_age ∧
      vmi.memory_cache_age < now - entry.last_updated
  · rw [if_pos hage]
    dsimp only
    rw [hpk]
    rw [if_pos (by simpa [List.contains, List.elem_iff] using hplru)]
    refine ⟨?_, ?_, ?_, ?_⟩
    · unfold consistent at *
      rw [setEntry_length]
      exact hsz1
    · have he := List.length_erase_of_mem hplru
      simp only [List.length_cons, he]
      omega
    · rw [keys_setEntry]
      exact ((List.perm_cons_erase hplru).symm.trans hperm)
    · rw [keys_setEntry]
      exact hnd
  · rw [if_neg hage]
    dsimp only
    rw [hpk]
    refine ⟨?_, hsz2, ?_, ?_⟩
    · rw [setEntry_length]
      exact hsz1
    · rw [keys_setEntry]
      exact hperm
    · rw [keys_setEntry]
      exact hnd

theorem consistent_insert (backend : Backend) (now : Nat) (vmi : Vmi) (p : Nat)
    (hc : consistent vmi) (hkc : keyConsistent vmi.memory_cache) :
    consistent (memory_cache_insert backend now vmi p).2 := by
  by_cases halign : p = alignDown vmi.page_size p
  case neg =>
    unfold memory_cache_insert
    rw [if_pos halign]
    exact hc
  case pos =>
    cases hlk : htLookup vmi.memory_cache p with
    | some entry =>
      rw [insert_hit_eq backend now vmi p entry halign hlk]
      have hpk : entry.paddr = p := by
        obtain ⟨l₁, l₂, hceq, hl⟩ := htLookup_decomp hlk
        exact hkc (p, entry) (by rw [hceq]; simp)
      exact consistent_validate hlk hpk hc
    | none =>
      obtain ⟨hsz1, hsz2, hperm, hnd⟩ := hc
      by_cases hrej : hvmReject vmi p vmi.page_size = true
      · have hres : memory_cache_insert backend now vmi p = (none, vmi) := by
          unfold memory_cache_insert create_new_entry
          rw [if_neg (by simp [← halign]), hlk, if_pos hrej]
        rw [hres]
        exact ⟨hsz1, hsz2, hperm, hnd⟩
      · rw [insert_miss_eq backend now vmi p halign hlk (by simpa using hrej)]
        dsimp only
        by_cases hcap : vmi.memory_cache_size ≥ vmi.memory_cache_size_max
        · rw [if_pos hcap]
          unfold clean_cache
          dsimp only
          rw [cleanLoop_eq]
          dsimp only
          have hkeys := keys_removeFold
            ((vmi.memory_cache_lru.drop
              (vmi.memory_cache_lru.length -
                (vmi.memory_cache_size - vmi.memory_cache_size_max / 2))).reverse)
            vmi.memory_cache
            (vmi.events ++ [Event.fetch p vmi.page_size (backend vmi.fetchCount p vmi.page_size)])
          have htle : vmi.memory_cache_lru.length -
              (vmi.memory_cache_size - vmi.memory_cache_size_max / 2) ≤
              vmi.memory_cache_lru.length := Nat.sub_le _ _
          have hms : (((keys vmi.memory_cache).diff
              ((vmi.memory_cache_lru.drop
                (vmi.memory_cache_lru.length -
                  (vmi.memory_cache_size - vmi.memory_cache_size_max / 2))).reverse) :
              List Nat) : Multiset Nat) =
              ((vmi.memory_cache_lru.take
                (vmi.memory_cache_lru.length -
                  (vmi.memory_cache_size - vmi.memory_cache_size_max / 2)) :
                List Nat) : Multiset Nat) := by
            rw [← Multiset.coe_sub]
            have h1 : ((keys vmi.memory_cache : List Nat) : Multiset Nat) =
                (vmi.memory_cache_lru : Multiset Nat) :=
              (Multiset.coe_eq_coe.mpr hperm).symm
            rw [h1, Multiset.coe_reverse]
            have hL : (vmi.memory_cache_lru : Multiset Nat) =
                ↑(vmi.memory_cache_lru.take
                  (vmi.memory_cache_lru.length -
                    (vmi.memory_cache_size - vmi.memory_cache_size_max / 2))) +
                ↑(vmi.memory_cache_lru.drop
                  (vmi.memory_cache_lru.length -
                    (vmi.memory_cache_size - vmi.memory_cache_size_max / 2))) := by
              rw [Multiset.coe_add, List.take_append_drop]
            rw [hL]
            simp only [add_tsub_cancel_right]
          have hpermNew : (vmi.memory_cache_lru.take
              (vmi.memory_cache_lru.length -
                (vmi.memory_cache_size - vmi.memory_cache_size_max / 2))).Perm
              (keys (List.foldl remove_entry
                (vmi.memory_cache,
                 vmi.events ++ [Event.fetch p vmi.page_size (backend vmi.fetchCount p vmi.page_size)])
                ((vmi.memory_cache_lru.drop
                  (vmi.memory_cache_lru.length -
                    (vmi.memory_cache_size - vmi.memory_cache_size_max / 2))).reverse)).1) := by
            rw [hkeys]
            exact Multiset.coe_eq_coe.mp hms.symm
          have hlt : (vmi.memory_cache_lru.take
              (vmi.memory_cache_lru.length -
                (vmi.memory_cache_size - vmi.memory_cache_size_max / 2))).length =
              vmi.memory_cache_lru.length -
                (vmi.memory_cache_size - vmi.memory_cache_size_max / 2) := by
            rw [List.length_take]
            omega
          have hclen : (List.foldl remove_entry
              (vmi.memory_cache,
               vmi.events ++ [Event.fetch p vmi.page_size (backend vmi.fetchCount p vmi.page_size)])
              ((vmi.memory_cache_lru.drop
                (vmi.memory_cache_lru.length -
                  (vmi.memory_cache_size - vmi.memory_cache_size_max / 2))).reverse)).1.length =
              vmi.memory_cache_lru.length -
                (vmi.memory_cache_size - vmi.memory_cache_size_max / 2) := by
            have h1 := hpermNew.length_eq
            rw [hlt] at h1
            unfold keys at h1
            rw [List.length_map] at h1
            omega
          have hsub : ∀ q ∈ keys (List.foldl remove_entry
              (vmi.memory_cache,
               vmi.events ++ [Event.fetch p vmi.page_size (backend vmi.fetchCount p vmi.page_size)])
              ((vmi.memory_cache_lru.drop
                (vmi.memory_cache_lru.length -
                  (vmi.memory_cache_size - vmi.memory_cache_size_max / 2))).reverse)).1,
              q ∈ keys vmi.memory_cache := by
            rw [hkeys]
            exact fun q hq => (List.diff_sublist _ _).subset hq
          refine ⟨?_, ?_, ?_, ?_⟩
          · simp only [List.length_cons, hclen]
            omega
          · simp only [List.length_cons, hlt]
            omega
          · unfold keys
            rw [List.map_cons]
            exact List.Perm.cons p hpermNew
          · unfold keys
            rw [List.map_cons]
            refine List.nodup_cons.mpr ⟨?_, ?_⟩
            · intro hmem
              exact htLookup_eq_none hlk (hsub p hmem)
            · have h2 : (keys (List.foldl remove_entry
                  (vmi.memory_cache,
                   vmi.events ++ [Event.fetch p vmi.page_size (backend vmi.fetchCount p vmi.page_size)])
                  ((vmi.memory_cache_lru.drop
                    (vmi.memory_cache_lru.length -
                      (vmi.memory_cache_size - vmi.memory_cache_size_max / 2))).reverse)).1).Nodup := by
                rw [hkeys]
                exact (List.diff_sublist _ _).nodup hnd
              exact h2
        · rw [if_neg hcap]
          refine ⟨?_, ?_, ?_, ?_⟩
          · simp only [List.length_cons]
            omega
          · simp only [List.length_cons]
            omega
          · unfold keys
            rw [List.map_cons]
            exact List.Perm.cons p hperm
          · unfold keys
            rw [List.map_cons]
            exact List.nodup_cons.mpr ⟨htLookup_eq_none hlk, hnd⟩

theorem consistent_destroy (vmi : Vmi) : consistent (memory_cache_destroy vmi) := by
  unfold memory_cache_destroy consistent keys
  simp

theorem consistent_init (page_size : Nat) (hvm : Bool)
    (guest_size age_limit size_max : Nat) :
    consistent (memory_cache_init page_size hvm guest_size age_limit size_max) := by
  unfold memory_cache_init consistent keys
  simp

theorem consistent_run_aux (backend : Backend) (ops : List Op) :
    ∀ vmi : Vmi, consistent vmi → Inv vmi →
      (∀ op ∈ ops, isRemove op = false) →
      consistent (run backend vmi ops) := by
  induction ops with
  | nil => intro vmi hc _ _; exact hc
  | cons op t ih =>
    intro vmi hc hinv hops
    have hop := hops op (by simp)
    have hrest : ∀ o ∈ t, isRemove o = false := fun o ho => hops o (by simp [ho])
    cases op with
    | insert now p =>
      exact ih (step backend vmi (Op.insert now p))
        (consistent_insert backend now vmi p hc hinv.2.1)
        (Inv_step backend vmi (Op.insert now p) hinv) hrest
    | remove p => simp [isRemove] at hop
    | destroy =>
      exact ih (step backend vmi Op.destroy)
        (consistent_destroy vmi)
        (Inv_step backend vmi Op.destroy hinv) hrest

end MemCache

/-- C2 amended: after init and after every memory_cache_insert and
memory_cache_destroy, memory_cache_size equals the number of entries in
the index and the length of the lru list, and the keys of the index are
exactly the elements of the lru list (each exactly once) — provided
no memory_cache_remove occurred: remove of a present key removes it
from the index only, leaving size and the lru list unchanged, and
breaks the invariant. -/
theorem C2_consistent_without_remove (backend : MemCache.Backend)
    (page_size : Nat) (hvm : Bool) (guest_size age_limit size_max : Nat)
    (ops : List MemCache.Op)
    (hops : ∀ op ∈ ops, MemCache.isRemove op = false) :
    MemCache.consistent
      (MemCache.run backend
        (MemCache.memory_cache_init page_size hvm guest_size age_limit size_max)
        ops) :=
  MemCache.consistent_run_aux backend ops
    (MemCache.memory_cache_init page_size hvm guest_size age_limit size_max)
    (MemCache.consistent_init page_size hvm guest_size age_limit size_max)
    (MemCache.Inv_init page_size hvm guest_size age_limit size_max)
    hops

/-- Witness for the amended C2 on a concrete trace of two inserts, one
hit, and a destroy. -/
theorem C2_consistent_without_remove_witness :
    (∀ op ∈ [MemCache.Op.insert 1 4096, MemCache.Op.insert 2 8192,
             MemCache.Op.insert 3 4096, MemCache.Op.destroy],
       MemCache.isRemove op = false) ∧
    MemCache.consistent
      (MemCache.run (MemCache.wbackend 700)
        (MemCache.memory_cache_init 4096 false 0 0 4)
        [MemCache.Op.insert 1 4096, MemCache.Op.insert 2 8192,
         MemCache.Op.insert 3 4096, MemCache.Op.destroy]) :=
  ⟨by decide,
   C2_consistent_without_remove (MemCache.wbackend 700) 4096 false 0 0 4
     [MemCache.Op.insert 1 4096, MemCache.Op.insert 2 8192,
      MemCache.Op.insert 3 4096, MemCache.Op.destroy]
     (by decide)⟩

namespace MemCache

theorem seg_nil (lo : Nat) : seg lo lo = [] := by
  simp [seg]

theorem seg_cons (lo hi : Nat) (h : lo ≤ hi) : seg lo (hi + 1) = hi :: seg lo hi := by
  unfold seg
  have h1 : hi + 1 - lo = (hi - lo) + 1 := by omega
  rw [h1, List.range_succ, List.reverse_append, List.reverse_cons, List.reverse_nil,
    List.nil_append, List.singleton_append, List.map_cons]
  have h2 : lo + (hi - lo) = hi := by omega
  rw [h2]

theorem seg_concat (lo hi : Nat) (h : lo < hi) : seg lo hi = seg (lo + 1) hi ++ [lo] := by
  unfold seg
  have h1 : hi - lo = (hi - (lo + 1)) + 1 := by omega
  rw [h1, List.range_succ_eq_map, List.reverse_cons, List.map_append, List.map_cons,
    List.map_nil]
  congr 1
  · rw [← List.map_reverse, List.map_map]
    apply List.map_congr_left
    intro i hi2
    simp only [Function.comp_apply]
    omega

theorem length_seg (lo hi : Nat) : (seg lo hi).length = hi - lo := by
  simp [seg]

theorem mem_seg {j lo hi : Nat} : j ∈ seg lo hi ↔ lo ≤ j ∧ j < hi := by
  unfold seg
  simp only [List.mem_map, List.mem_reverse, List.mem_range]
  constructor
  · rintro ⟨i, hilt, rfl⟩
    omega
  · intro ⟨h1, h2⟩
    exact ⟨j - lo, by omega, by omega⟩

theorem seg_append (lo mid hi : Nat) (h1 : lo ≤ mid) (h2 : mid ≤ hi) :
    seg lo hi = seg mid hi ++ seg lo mid := by
  unfold seg
  have h3 : hi - lo = (mid - lo) + (hi - mid) := by omega
  rw [h3, List.range_add, List.reverse_append, List.map_append]
  congr 1
  · rw [← List.map_reverse, List.map_map]
    apply List.map_congr_left
    intro i hi2
    simp [Function.comp]
    omega

theorem seg_zero_reverse (t : Nat) : (seg 0 t).reverse = List.range t := by
  unfold seg
  rw [List.map_reverse, List.reverse_reverse]
  simp only [Nat.sub_zero]
  have h : ∀ i ∈ List.range t, 0 + i = i := fun i _ => by omega
  rw [List.map_congr_left h]
  simp

end MemCache

namespace MemCache

theorem run_append (backend : Backend) (s : Vmi) (l₁ l₂ : List Op) :
    run backend s (l₁ ++ l₂) = run backend (run backend s l₁) l₂ :=
  List.foldl_append _ _ _ _

theorem insert_fresh (backend : Backend) (now : Nat) (vmi : Vmi) (p : Nat)
    (halign : p = alignDown vmi.page_size p)
    (hmiss : htLookup vmi.memory_cache p = none)
    (hrej : hvmReject vmi p vmi.page_size = false)
    (hcap : vmi.memory_cache_size < vmi.memory_cache_size_max) :
    memory_cache_insert backend now vmi p =
      (backend vmi.fetchCount p vmi.page_size,
       { vmi with
           memory_cache := (p, { paddr := p, length := vmi.page_size,
                                 last_updated := now, last_used := now,
                                 data := backend vmi.fetchCount p vmi.page_size }) ::
             vmi.memory_cache,
           memory_cache_lru := p :: vmi.memory_cache_lru,
           memory_cache_size := vmi.memory_cache_size + 1,
           fetchCount := vmi.fetchCount + 1,
           events := vmi.events ++
             [Event.fetch p vmi.page_size (backend vmi.fetchCount p vmi.page_size)] }) := by
  rw [insert_miss_eq backend now vmi p halign hmiss hrej]
  dsimp only
  rw [if_neg (by omega)]

theorem scenCache_lookup_none {backend : Backend} {P now : Nat} {pg : Nat → Nat}
    {lo hi k : Nat} (hne : ∀ j, lo ≤ j → j < hi → pg j ≠ pg k) :
    htLookup (scenCache backend P now pg lo hi) (pg k) = none := by
  unfold htLookup
  rw [Option.map_eq_none']
  apply List.find?_eq_none.mpr
  intro kv hkv
  obtain ⟨j, hj, rfl⟩ := List.mem_map.mp hkv
  obtain ⟨hj1, hj2⟩ := mem_seg.mp hj
  simpa using hne j hj1 hj2

theorem scenCache_succ (backend : Backend) (P now : Nat) (pg : Nat → Nat) (k : Nat) :
    scenCache backend P now pg 0 (k + 1) =
      (pg k, scenEntry backend P now pg k) :: scenCache backend P now pg 0 k := by
  unfold scenCache
  rw [seg_cons 0 k (Nat.zero_le k), List.map_cons]

theorem scenLru_succ (pg : Nat → Nat) (k : Nat) :
    scenLru pg 0 (k + 1) = pg k :: scenLru pg 0 k := by
  unfold scenLru
  rw [seg_cons 0 k (Nat.zero_le k), List.map_cons]

theorem scenFetches_succ (backend : Backend) (P : Nat) (pg : Nat → Nat) (k : Nat) :
    scenFetches backend P pg (k + 1) =
      scenFetches backend P pg k ++
        [Event.fetch (pg k) P (backend k (pg k) P)] := by
  unfold scenFetches
  rw [List.range_succ, List.map_append]
  rfl

theorem scenReleases_succ (backend : Backend) (P : Nat) (pg : Nat → Nat) (t : Nat) :
    scenReleases backend P pg (t + 1) =
      scenReleases backend P pg t ++
        [Event.release (backend t (pg t) P) P] := by
  unfold scenReleases
  rw [List.range_succ, List.map_append]
  rfl

theorem scenState_zero (backend : Backend) (P gsz now : Nat) (pg : Nat → Nat) (M : Nat) :
    scenState backend P gsz now pg M 0 = memory_cache_init P false gsz 0 M := by
  unfold scenState memory_cache_init scenCache scenLru scenFetches
  rw [seg_nil]
  simp

theorem scen_prefix (backend : Backend) (P gsz now : Nat) (pg : Nat → Nat) (M : Nat)
    (halign : ∀ j, j ≤ M → pg j = alignDown P (pg j))
    (hinj : ∀ i j, i ≤ M → j ≤ M → pg i = pg j → i = j) :
    ∀ k, k ≤ M →
      run backend (memory_cache_init P false gsz 0 M)
        ((List.range k).map (fun j => Op.insert now (pg j))) =
      scenState backend P gsz now pg M k := by
  intro k
  induction k with
  | zero =>
    intro _
    rw [scenState_zero]
    rfl
  | succ k ih =>
    intro hk1
    have hk : k ≤ M := by omega
    rw [List.range_succ, List.map_append, run_append, ih hk]
    have hstep : run backend (scenState backend P gsz now pg M k)
        (List.map (fun j => Op.insert now (pg j)) [k]) =
        (memory_cache_insert backend now (scenState backend P gsz now pg M k)
          (pg k)).2 := rfl
    rw [hstep]
    have hrej : hvmReject (scenState backend P gsz now pg M k) (pg k)
        (scenState backend P gsz now pg M k).page_size = false := by
      simp [hvmReject, scenState]
    rw [insert_fresh backend now (scenState backend P gsz now pg M k) (pg k)
      (halign k hk)
      (scenCache_lookup_none (fun j hj1 hj2 heq =>
        by have := hinj j k (by omega) hk heq; omega))
      hrej (by show k < M; omega)]
    dsimp only [scenState]
    rw [scenCache_succ, scenLru_succ, scenFetches_succ]
    rfl

end MemCache

namespace MemCache

theorem scen_fold (backend : Backend) (P now : Nat) (pg : Nat → Nat) (M : Nat)
    (hinj : ∀ i j, i ≤ M → j ≤ M → pg i = pg j → i = j) :
    ∀ t, t ≤ M → ∀ evs : List Event,
      List.foldl remove_entry (scenCache backend P now pg 0 M, evs)
        ((List.range t).map pg) =
      (scenCache backend P now pg t M, evs ++ scenReleases backend P pg t) := by
  intro t
  induction t with
  | zero =>
    intro _ evs
    simp [scenReleases]
  | succ t ih =>
    intro ht1 evs
    have ht : t ≤ M := by omega
    rw [List.range_succ, List.map_append, List.foldl_append, ih ht evs]
    have hsplit : scenCache backend P now pg t M =
        scenCache backend P now pg (t + 1) M ++
          [(pg t, scenEntry backend P now pg t)] := by
      unfold scenCache
      rw [seg_concat t M (by omega), List.map_append]
      rfl
    have hne : ∀ kv ∈ scenCache backend P now pg (t + 1) M,
        (kv.1 == pg t) = false := by
      intro kv hkv
      obtain ⟨j, hj, rfl⟩ := List.mem_map.mp hkv
      obtain ⟨hj1, hj2⟩ := mem_seg.mp hj
      have hne2 : pg j ≠ pg t := fun heq => by
        have := hinj j t (by omega) (by omega) heq
        omega
      simpa using hne2
    have hlook : htLookup (scenCache backend P now pg t M) (pg t) =
        some (scenEntry backend P now pg t) := by
      rw [hsplit]
      exact htLookup_block hne
    show remove_entry
        (scenCache backend P now pg t M, evs ++ scenReleases backend P pg t)
        (pg t) = _
    unfold remove_entry htRemoveFree
    dsimp only
    rw [hlook]
    refine congrArg₂ Prod.mk ?_ ?_
    · rw [hsplit, eraseP_block [] hne (by simp), List.append_nil]
    · unfold memory_cache_entry_free
      rw [scenReleases_succ, ← List.append_assoc]
      rfl

end MemCache

namespace MemCache

theorem scen_full (backend : Backend) (P gsz now : Nat) (pg : Nat → Nat) (M : Nat)
    (heven : M % 2 = 0) (hM : 0 < M)
    (halign : ∀ j, j ≤ M → pg j = alignDown P (pg j))
    (hinj : ∀ i j, i ≤ M → j ≤ M → pg i = pg j → i = j) :
    run backend (memory_cache_init P false gsz 0 M)
      ((List.range (M + 1)).map (fun j => Op.insert now (pg j))) =
    { page_size := P, hvm := false, size := gsz,
      memory_cache := (pg M, scenEntry backend P now pg M) ::
        scenCache backend P now pg (M / 2) M,
      memory_cache_lru := pg M :: scenLru pg (M / 2) M,
      memory_cache_age := 0,
      memory_cache_size := M - (M - M / 2) + 1,
      memory_cache_size_max := M,
      fetchCount := M + 1,
      events := scenFetches backend P pg (M + 1) ++
        scenReleases backend P pg (M / 2) } := by
  rw [List.range_succ, List.map_append, run_append,
    scen_prefix backend P gsz now pg M halign hinj M le_rfl]
  have hstep : run backend (scenState backend P gsz now pg M M)
      (List.map (fun j => Op.insert now (pg j)) [M]) =
      (memory_cache_insert backend now (scenState backend P gsz now pg M M)
        (pg M)).2 := rfl
  rw [hstep]
  have hmissM : htLookup (scenState backend P gsz now pg M M).memory_cache (pg M) =
      none :=
    scenCache_lookup_none (fun j hj1 hj2 heq => by
      have := hinj j M (by omega) le_rfl heq
      omega)
  have hrejM : hvmReject (scenState backend P gsz now pg M M) (pg M)
      (scenState backend P gsz now pg M M).page_size = false := by
    simp [hvmReject, scenState]
  rw [insert_miss_eq backend now (scenState backend P gsz now pg M M) (pg M)
    (halign M le_rfl) hmissM hrejM]
  dsimp only [scenState]
  rw [if_pos (le_refl M)]
  unfold clean_cache
  dsimp only
  rw [cleanLoop_eq]
  dsimp only
  have hlen : (scenLru pg 0 M).length = M := by
    simp [scenLru, length_seg]
  have ht2 : (scenLru pg 0 M).length - (M - M / 2) = M / 2 := by
    rw [hlen]
    omega
  rw [ht2]
  have hsplitL : scenLru pg 0 M = scenLru pg (M / 2) M ++ scenLru pg 0 (M / 2) := by
    unfold scenLru
    rw [seg_append 0 (M / 2) M (by omega) (by omega), List.map_append]
  have hlen2 : (scenLru pg (M / 2) M).length = M / 2 := by
    simp [scenLru, length_seg]
    omega
  have htake : (scenLru pg 0 M).take (M / 2) = scenLru pg (M / 2) M := by
    rw [hsplitL]
    exact List.take_left' hlen2
  have hdrop : (scenLru pg 0 M).drop (M / 2) = scenLru pg 0 (M / 2) := by
    rw [hsplitL]
    exact List.drop_left' hlen2
  rw [htake, hdrop]
  have hdet : (scenLru pg 0 (M / 2)).reverse = (List.range (M / 2)).map pg := by
    unfold scenLru
    rw [← List.map_reverse, seg_zero_reverse]
  rw [hdet]
  rw [← scenFetches_succ backend P pg M]
  rw [scen_fold backend P now pg M hinj (M / 2) (by omega)
    (scenFetches backend P pg (M + 1))]
  rfl

end MemCache

namespace MemCache

theorem releasedTotal_scenFetches (backend : Backend) (P : Nat) (pg : Nat → Nat)
    (n : Nat) : releasedTotal (scenFetches backend P pg n) = 0 := by
  unfold releasedTotal scenFetches
  rw [List.countP_map]
  simp [List.countP_eq_zero]

theorem releasedTotal_scenReleases (backend : Backend) (P : Nat) (pg : Nat → Nat)
    (t : Nat) : releasedTotal (scenReleases backend P pg t) = t := by
  unfold releasedTotal scenReleases
  rw [List.countP_map]
  have h : List.countP ((fun e => match e with
      | Event.release _ _ => true
      | _ => false) ∘ (fun j => Event.release (backend j (pg j) P) P))
      (List.range t) = (List.range t).length :=
    List.countP_eq_length.mpr (fun a _ => rfl)
  rw [h, List.length_range]

end MemCache

/-- C5: in full-cache mode, eviction runs during new-entry creation
exactly when memory_cache_size is at least memory_cache_size_max: when
it triggers, the resulting size after the insert is at most
size_max / 2 + 1 (integer division); when it does not trigger, the lru
list is merely extended at the head.  Moreover, inserting size_max + 1
distinct aligned pages into a fresh cache (even size_max) leaves
exactly size_max / 2 + 1 entries resident — each holding a live
buffer — and invokes the release callback on exactly the other
size_max / 2 buffers. -/
theorem C5_eviction_halving (M P gsz now : Nat) (pg : Nat → Nat)
    (backend : MemCache.Backend)
    (heven : M % 2 = 0) (hM : 0 < M)
    (halign : ∀ j, j ≤ M → pg j = MemCache.alignDown P (pg j))
    (hinj : ∀ i, i ≤ M → ∀ j, j ≤ M → pg i = pg j → i = j)
    (hsome : ∀ i q l, (backend i q l).isSome = true) :
    (∀ (vmi : MemCache.Vmi) (q : Nat) (backend2 : MemCache.Backend) (now2 : Nat),
       q = MemCache.alignDown vmi.page_size q →
       MemCache.htLookup vmi.memory_cache q = none →
       MemCache.hvmReject vmi q vmi.page_size = false →
       vmi.memory_cache_size ≥ vmi.memory_cache_size_max →
       (MemCache.memory_cache_insert backend2 now2 vmi q).2.memory_cache_size ≤
         vmi.memory_cache_size_max / 2 + 1) ∧
    (∀ (vmi : MemCache.Vmi) (q : Nat) (backend2 : MemCache.Backend) (now2 : Nat),
       q = MemCache.alignDown vmi.page_size q →
       MemCache.htLookup vmi.memory_cache q = none →
       MemCache.hvmReject vmi q vmi.page_size = false →
       vmi.memory_cache_size < vmi.memory_cache_size_max →
       (MemCache.memory_cache_insert backend2 now2 vmi q).2.memory_cache_lru =
         q :: vmi.memory_cache_lru) ∧
    ((MemCache.run backend (MemCache.memory_cache_init P false gsz 0 M)
        ((List.range (M + 1)).map (fun j => MemCache.Op.insert now (pg j)))).memory_cache_size =
       M / 2 + 1 ∧
     (MemCache.run backend (MemCache.memory_cache_init P false gsz 0 M)
        ((List.range (M + 1)).map (fun j => MemCache.Op.insert now (pg j)))).memory_cache.length =
       M / 2 + 1 ∧
     (MemCache.run backend (MemCache.memory_cache_init P false gsz 0 M)
        ((List.range (M + 1)).map (fun j => MemCache.Op.insert now (pg j)))).memory_cache_lru.length =
       M / 2 + 1 ∧
     MemCache.releasedTotal
       (MemCache.run backend (MemCache.memory_cache_init P false gsz 0 M)
         ((List.range (M + 1)).map (fun j => MemCache.Op.insert now (pg j)))).events =
       M / 2 ∧
     ∀ kv ∈ (MemCache.run backend (MemCache.memory_cache_init P false gsz 0 M)
         ((List.range (M + 1)).map (fun j => MemCache.Op.insert now (pg j)))).memory_cache,
       kv.2.data.isSome = true) := by
  refine ⟨?_, ?_, ?_⟩
  · intro vmi q backend2 now2 halign2 hmiss2 hrej2 hcap2
    rw [MemCache.insert_miss_eq backend2 now2 vmi q halign2 hmiss2 hrej2]
    dsimp only
    rw [if_pos hcap2]
    unfold MemCache.clean_cache
    dsimp only
    rw [MemCache.cleanLoop_eq]
    dsimp only
    omega
  · intro vmi q backend2 now2 halign2 hmiss2 hrej2 hcap2
    rw [MemCache.insert_fresh backend2 now2 vmi q halign2 hmiss2 hrej2 hcap2]
  · rw [MemCache.scen_full backend P gsz now pg M heven hM halign
      (fun i j hi hj => hinj i hi j hj)]
    dsimp only
    refine ⟨by omega, ?_, ?_, ?_, ?_⟩
    · simp only [List.length_cons, MemCache.scenCache, List.length_map,
        MemCache.length_seg]
      omega
    · simp only [List.length_cons, MemCache.scenLru, List.length_map,
        MemCache.length_seg]
      omega
    · rw [MemCache.releasedTotal_append, MemCache.releasedTotal_scenFetches,
        MemCache.releasedTotal_scenReleases]
      omega
    · intro kv hkv
      rcases List.mem_cons.mp hkv with h1 | h1
      · rw [h1]
        exact hsome M (pg M) P
      · obtain ⟨j, hj, rfl⟩ := List.mem_map.mp h1
        exact hsome j (pg j) P

/-- Witness for C5 with size_max 4: inserting pages 0x1000..0x5000 into
a fresh cache leaves 3 entries resident and releases 2 buffers. -/
theorem C5_eviction_halving_witness :
    ((4 : Nat) % 2 = 0 ∧ (0 : Nat) < 4 ∧
     (∀ j, j ≤ 4 → (j + 1) * 4096 = MemCache.alignDown 4096 ((j + 1) * 4096)) ∧
     (∀ i, i ≤ 4 → ∀ j, j ≤ 4 → (i + 1) * 4096 = (j + 1) * 4096 → i = j) ∧
     (∀ i q l, (MemCache.wbackend 800 i q l).isSome = true)) ∧
    (MemCache.run (MemCache.wbackend 800)
       (MemCache.memory_cache_init 4096 false 0 0 4)
       ((List.range 5).map
         (fun j => MemCache.Op.insert 0 ((j + 1) * 4096)))).memory_cache_size =
      4 / 2 + 1 ∧
    MemCache.releasedTotal
      (MemCache.run (MemCache.wbackend 800)
        (MemCache.memory_cache_init 4096 false 0 0 4)
        ((List.range 5).map
          (fun j => MemCache.Op.insert 0 ((j + 1) * 4096)))).events = 4 / 2 :=
  ⟨⟨by decide, by decide, by decide, by decide, fun i q l => rfl⟩,
   (C5_eviction_halving 4 4096 0 0 (fun j => (j + 1) * 4096)
     (MemCache.wbackend 800) (by decide) (by decide) (by decide) (by decide)
     (fun i q l => rfl)).2.2.1,
   (C5_eviction_halving 4 4096 0 0 (fun j => (j + 1) * 4096)
     (MemCache.wbackend 800) (by decide) (by decide) (by decide) (by decide)
     (fun i q l => rfl)).2.2.2.2.2.1⟩
